import Mathlib

/-!
Verification of the study-plan scheduler (scheduler.py, ai_agent.py, models.py).

Shallow embedding conventions:

* Timestamps (`datetime` values) are rationals counting minutes since an
  arbitrary epoch.  Calendar dates (the `%Y-%m-%d` strings the code passes
  around) are integers counting days since the same epoch; the code compares
  such strings lexicographically, which agrees with chronological order for
  ISO dates, so integer comparison is a faithful model.  A time of day
  (`%H:%M`) is a natural number of minutes; `strptime(date + time)` becomes
  `day * 1440 + time`.
* Hours (`duration_hours`, `estimated_hours`, `daily_hours`) are rationals.
* The relational store is a record of lists, in insertion order; SQLAlchemy's
  `query.get(id)` is lookup by the `id` field, `filter_by(...).first()` is
  the first list element satisfying the filter, and `db.session.add` appends
  (primary keys are drawn from explicit counters).
* Python dictionaries coming from the planner oracle are records with
  `Option` fields: `none` models a missing (or unparseable, for dates) key,
  so `d['k']` becomes a monadic access that throws, and `d.get('k', v)`
  becomes `getD v`.  `apply_schedule_adaptation`'s `try/except` block is an
  `Except String` computation; `db.session.rollback()` in the handler is
  modelled by returning the store as it was before the call.
-/

namespace StudyAgent

/-! ### Data model (models.py) -/

/-- `Subject` row: only the fields the verified operations read. -/
structure Subject where
  id : ℕ
  name : String
  examDate : ℚ
deriving DecidableEq

/-- `Chapter` row. -/
structure Chapter where
  id : ℕ
  subjectId : ℕ
  title : String
  estimatedHours : ℚ
  isCompleted : Bool
deriving DecidableEq

/-- `StudySession` row. -/
structure StudySession where
  id : ℕ
  chapterId : ℕ
  scheduledDate : ℚ
  durationHours : ℚ
  status : String
  actualStartTime : Option ℚ
  actualEndTime : Option ℚ
  notes : Option String
  createdAt : ℚ
  updatedAt : ℚ
deriving DecidableEq

/-! ### Oracle adaptation-plan structure (the JSON dict fed to
`apply_schedule_adaptation`, produced e.g. by `_fallback_adaptation`) -/

/-- The `reschedule_missed` block of an adaptation plan.  `new_date` /
`new_time` are `Option` because the code indexes them directly (a missing or
unparseable value raises). -/
structure RescheduleInfo where
  newDate : Option ℤ
  newTime : Option ℕ
  durationAdjustment : Option ℚ
  reasoning : Option String
deriving DecidableEq

/-- One entry of `schedule_adjustments`. -/
structure Adjustment where
  changeType : Option String
  originalSession : Option String
  newDate : Option ℤ
  newTime : Option ℕ
deriving DecidableEq

/-- The value of the `adaptation_plan` key. -/
structure InnerPlan where
  rescheduleMissed : Option RescheduleInfo
  scheduleAdjustments : List Adjustment
deriving DecidableEq

/-- A full adaptation-plan dict. -/
structure AdaptationPlan where
  adaptationPlan : Option InnerPlan
  reasoning : Option String
deriving DecidableEq

/-- `plan.get('adaptation_plan', {}).get('reschedule_missed', {})`, with the
empty dict read as `none`. -/
def AdaptationPlan.rescheduleInfo (p : AdaptationPlan) : Option RescheduleInfo :=
  p.adaptationPlan.bind (fun ip => ip.rescheduleMissed)

/-- `plan.get('adaptation_plan', {}).get('schedule_adjustments', [])`. -/
def AdaptationPlan.adjustments (p : AdaptationPlan) : List Adjustment :=
  (p.adaptationPlan.map (fun ip => ip.scheduleAdjustments)).getD []

/-- `ScheduleAdaptation` audit row; `changes_made` stores a serialized copy of
the plan, modelled as the plan value itself. -/
structure ScheduleAdaptation where
  id : ℕ
  originalSessionId : ℕ
  adaptationReason : String
  aiReasoning : String
  changesMade : AdaptationPlan
  createdAt : ℚ
deriving DecidableEq

/-- The entity store: the five tables (StudyPlan rows carry no verified
behavior and are omitted) plus primary-key counters. -/
structure Store where
  subjects : List Subject
  chapters : List Chapter
  sessions : List StudySession
  adaptations : List ScheduleAdaptation
  nextSessionId : ℕ
  nextAdaptationId : ℕ
deriving DecidableEq

/-! ### Fallback generators (ai_agent.py) -/

/-- Input chapter record for `_fallback_schedule`. -/
structure FallbackChapter where
  title : String
  subjectName : String
  estimatedHours : ℚ
deriving DecidableEq

/-- Session descriptor emitted by `_fallback_schedule` (fixed placeholder
start/end times, in minutes). -/
structure FallbackSession where
  chapterTitle : String
  subject : String
  startTime : ℕ
  endTime : ℕ
  durationHours : ℚ
  sessionType : String
  breakAfter : ℕ
deriving DecidableEq

/-- One day of an oracle/fallback schedule structure. -/
structure DaySchedule where
  date : ℤ
  sessions : List FallbackSession
deriving DecidableEq

/-- The session descriptor `_fallback_schedule` builds for a chapter. -/
def fallbackSessionOf (c : FallbackChapter) : FallbackSession :=
  { chapterTitle := c.title
    subject := c.subjectName
    startTime := 9 * 60
    endTime := 11 * 60
    durationHours := c.estimatedHours
    sessionType := "new_material"
    breakAfter := 15 }

/-- The inner `for chapter in chapters_queue[:]` loop of `_fallback_schedule`:
walk the pending queue in order, assigning each chapter whose estimated hours
fit into the remaining daily budget and keeping the others pending.  Returns
(sessions for the day, still-pending chapters). -/
def fillDay : ℚ → List FallbackChapter → List FallbackSession × List FallbackChapter
  | _, [] => ([], [])
  | remaining, c :: rest =>
    if c.estimatedHours ≤ remaining then
      let r := fillDay (remaining - c.estimatedHours) rest
      (fallbackSessionOf c :: r.1, r.2)
    else
      let r := fillDay remaining rest
      (r.1, c :: r.2)

/-- The outer `while chapters_queue and current_date <= end_date` loop of
`_fallback_schedule`, with explicit fuel (each iteration advances
`current` by one day, so `end + 1 - current` iterations suffice). -/
def fallbackScheduleAux (dailyHours : ℚ) (endDate : ℤ) :
    ℕ → ℤ → List FallbackChapter → List DaySchedule
  | 0, _, _ => []
  | fuel + 1, current, queue =>
    if queue = [] ∨ endDate < current then []
    else
      let r := fillDay dailyHours queue
      let rest := fallbackScheduleAux dailyHours endDate fuel (current + 1) r.2
      if r.1 = [] then rest else { date := current, sessions := r.1 } :: rest

/-- `AIStudyAgent._fallback_schedule`: greedy day-by-day assignment of the
chapters (in input order) from the plan's start date to its end date. -/
def fallbackSchedule (chapters : List FallbackChapter) (startDate endDate : ℤ)
    (dailyHours : ℚ) : List DaySchedule :=
  fallbackScheduleAux dailyHours endDate (endDate + 1 - startDate).toNat startDate chapters

/-- The missed-session record handed to `adapt_schedule_for_missed_session`
(`chapter_title`, `scheduled_date`, `start_time`, `duration_hours`,
`miss_reason`). -/
structure MissedSessionInfo where
  chapterTitle : String
  scheduledDate : ℤ
  startTime : ℕ
  durationHours : ℚ
  missReason : String
deriving DecidableEq

/-- An upcoming-session record (the projection produced by
`get_current_schedule`) passed alongside the missed session. -/
structure UpcomingSessionInfo where
  chapterTitle : String
  scheduledDate : ℤ
  startTime : ℕ
  durationHours : ℚ
  status : String
deriving DecidableEq

/-- `AIStudyAgent._fallback_adaptation`: reschedule the missed session to
tomorrow (`datetime.now() + timedelta(days=1)`, date part) at the fixed time
14:00, adjustment 0, no other adjustments.  `now` is the current wall-clock
timestamp in minutes. -/
def fallbackAdaptation (missedSession : MissedSessionInfo)
    (upcomingSessions : List UpcomingSessionInfo) (now : ℚ) : AdaptationPlan :=
  { adaptationPlan := some
      { rescheduleMissed := some
          { newDate := some ⌊(now + 1440) / 1440⌋
            newTime := some (14 * 60)
            durationAdjustment := some 0
            reasoning := some "Rescheduled to next available day" }
        scheduleAdjustments := [] }
    reasoning := some "Basic rescheduling due to AI service unavailability" }

/-! ### Schedule manager (scheduler.py) -/

/-- `StudySession.query.get(session_id)`. -/
def Store.findSession (st : Store) (sid : ℕ) : Option StudySession :=
  st.sessions.find? (fun s => s.id == sid)

/-- `Chapter.query.filter_by(title=t).first()`. -/
def Store.findChapterByTitle (st : Store) (t : String) : Option Chapter :=
  st.chapters.find? (fun c => c.title == t)

/-- `reason or 'Not specified'` (Python treats `None` and `""` as falsy). -/
def reasonOrDefault : Option String → String
  | none => "Not specified"
  | some r => if r = "" then "Not specified" else r

/-- The note `mark_session_missed` writes. -/
def missedNote (reason : Option String) : String :=
  "Missed session. Reason: " ++ reasonOrDefault reason

/-- The three field writes of `mark_session_missed` on the found session. -/
def missedUpdate (reason : Option String) (now : ℚ) (s : StudySession) : StudySession :=
  { s with status := "missed", notes := some (missedNote reason), updatedAt := now }

/-- `ScheduleManager.mark_session_missed`. -/
def markSessionMissed (st : Store) (sid : ℕ) (reason : Option String) (now : ℚ) :
    Bool × Store :=
  (st.findSession sid).elim (false, st) (fun _ =>
    (true, { st with sessions := st.sessions.map (fun s =>
      if s.id == sid then missedUpdate reason now s else s) }))

/-- The field writes of `mark_session_completed` on the found session. -/
def completedUpdate (notes : Option String) (now : ℚ) (s : StudySession) : StudySession :=
  { s with status := "completed"
           actualStartTime := some (now - s.durationHours * 60)
           actualEndTime := some now
           notes := notes
           updatedAt := now }

/-- `ScheduleManager.mark_session_completed`.  The remaining-`scheduled` count
runs against the store with the session already updated (SQLAlchemy
autoflushes the pending status change before the count query). -/
def markSessionCompleted (st : Store) (sid : ℕ) (notes : Option String) (now : ℚ) :
    Bool × Store :=
  (st.findSession sid).elim (false, st) (fun s0 =>
    let sessions' := st.sessions.map (fun s =>
      if s.id == sid then completedUpdate notes now s else s)
    let remaining := (sessions'.filter
      (fun s => s.chapterId == s0.chapterId && s.status == "scheduled")).length
    let chapters' :=
      if remaining = 0 then
        st.chapters.map (fun c =>
          if c.id == s0.chapterId then { c with isCompleted := true } else c)
      else st.chapters
    (true, { st with sessions := sessions', chapters := chapters' }))

/-- Dict access `o['k']`: raises (modelled as `Except.error`) when missing. -/
def req {α : Type} (o : Option α) (k : String) : Except String α :=
  o.elim (.error k) (fun a => .ok a)

/-- Overwrite the first still-`scheduled` session of chapter `chId` with the
new date/time and status `rescheduled` (the
`StudySession.query.filter_by(chapter_id=..., status='scheduled').first()`
lookup followed by in-place mutation); `none` when no such session exists. -/
def rescheduleFirstScheduled (chId : ℕ) (newDT : ℚ) (now : ℚ) :
    List StudySession → Option (List StudySession)
  | [] => none
  | s :: rest =>
    if s.chapterId == chId && s.status == "scheduled" then
      some ({ s with scheduledDate := newDT, status := "rescheduled", updatedAt := now } :: rest)
    else
      (rescheduleFirstScheduled chId newDT now rest).map (fun l => s :: l)

/-- One iteration of the `for adjustment in adjustments` loop of
`apply_schedule_adaptation`.  Field accesses follow the code's evaluation
order: `change_type` first, then (in the `reschedule` branch)
`original_session`, the chapter lookup, the session lookup, and only when a
session was found the `new_date`/`new_time` accesses. -/
def applyAdjustment (now : ℚ) (st : Store) (adj : Adjustment) : Except String Store := do
  let ct ← req adj.changeType "change_type"
  if ct = "reschedule" then
    let title ← req adj.originalSession "original_session"
    (st.findChapterByTitle title).elim (pure st) (fun ch =>
      if (st.sessions.find? (fun s => s.chapterId == ch.id && s.status == "scheduled")).isSome then do
        let d ← req adj.newDate "new_date"
        let t ← req adj.newTime "new_time"
        pure ((rescheduleFirstScheduled ch.id ((d : ℚ) * 1440 + (t : ℚ)) now st.sessions).elim st
          (fun sessions' => { st with sessions := sessions' }))
      else pure st)
  else pure st

/-- The audit row `apply_schedule_adaptation` records before mutating. -/
def auditRow (st : Store) (plan : AdaptationPlan) (sid : ℕ) (reason : String)
    (now : ℚ) : ScheduleAdaptation :=
  { id := st.nextAdaptationId
    originalSessionId := sid
    adaptationReason := reason
    aiReasoning := plan.reasoning.getD ""
    changesMade := plan
    createdAt := now }

/-- `db.session.add(adaptation)`: append the audit row. -/
def addAudit (st : Store) (plan : AdaptationPlan) (sid : ℕ) (reason : String)
    (now : ℚ) : Store :=
  { st with
    adaptations := st.adaptations ++ [auditRow st plan sid reason now]
    nextAdaptationId := st.nextAdaptationId + 1 }

/-- The brand-new session built from the `reschedule_missed` block. -/
def rescheduledRow (st1 : Store) (orig : StudySession) (info : RescheduleInfo)
    (d : ℤ) (t : ℕ) (now : ℚ) : StudySession :=
  { id := st1.nextSessionId
    chapterId := orig.chapterId
    scheduledDate := (d : ℚ) * 1440 + (t : ℚ)
    durationHours := orig.durationHours + info.durationAdjustment.getD 0
    status := "rescheduled"
    actualStartTime := none
    actualEndTime := none
    notes := none
    createdAt := now
    updatedAt := now }

/-- `db.session.add(new_session)`: append the rescheduled session. -/
def addRescheduled (st1 : Store) (orig : StudySession) (info : RescheduleInfo)
    (d : ℤ) (t : ℕ) (now : ℚ) : Store :=
  { st1 with
    sessions := st1.sessions ++ [rescheduledRow st1 orig info d t now]
    nextSessionId := st1.nextSessionId + 1 }

/-- The body of `ScheduleManager.apply_schedule_adaptation`'s `try` block. -/
def applyScheduleAdaptationCore (st : Store) (plan : AdaptationPlan) (sid : ℕ)
    (reason : String) (now : ℚ) : Except String (Bool × Store) :=
  (st.findSession sid).elim (pure (false, st)) (fun orig => do
    let st1 : Store := addAudit st plan sid reason now
    let st2 ← plan.rescheduleInfo.elim (pure st1) (fun info => do
        let d ← req info.newDate "new_date"
        let t ← req info.newTime "new_time"
        pure (addRescheduled st1 orig info d t now))
    let st3 ← plan.adjustments.foldlM (applyAdjustment now) st2
    pure (true, st3))

/-- `ScheduleManager.apply_schedule_adaptation`: the `except` handler rolls
back every write of the call and returns `False`, so an error yields the
original store: unwrap the `try` block's outcome, rolling back on error. -/
def rollbackOnError (st : Store) : Except String (Bool × Store) → Bool × Store
  | .ok r => r
  | .error _ => (false, st)

def applyScheduleAdaptation (st : Store) (plan : AdaptationPlan) (sid : ℕ)
    (reason : String) (now : ℚ) : Bool × Store :=
  rollbackOnError st (applyScheduleAdaptationCore st plan sid reason now)

/-! ### Schedule materializer (create_sessions_from_ai_schedule) -/

/-- Session descriptor inside an oracle schedule structure
(`chapter_title`, `start_time`, `duration_hours`). -/
structure AISessionData where
  chapterTitle : String
  startTime : ℕ
  durationHours : ℚ
deriving DecidableEq

/-- One `{date, sessions}` element of an oracle schedule structure. -/
structure AIDaySchedule where
  date : ℤ
  sessions : List AISessionData
deriving DecidableEq

/-- The session row built for a resolvable descriptor. -/
def materializedSession (dayDate : ℤ) (sd : AISessionData) (ch : Chapter)
    (sid : ℕ) (now : ℚ) : StudySession :=
  { id := sid
    chapterId := ch.id
    scheduledDate := (dayDate : ℚ) * 1440 + (sd.startTime : ℚ)
    durationHours := sd.durationHours
    status := "scheduled"
    actualStartTime := none
    actualEndTime := none
    notes := none
    createdAt := now
    updatedAt := now }

/-- The inner loop step of `create_sessions_from_ai_schedule`: one descriptor
of one day. -/
def materializeStep (dayDate : ℤ) (now : ℚ) (acc : List StudySession × Store)
    (sd : AISessionData) : List StudySession × Store :=
  (acc.2.findChapterByTitle sd.chapterTitle).elim acc (fun ch =>
    let s := materializedSession dayDate sd ch acc.2.nextSessionId now
    (acc.1 ++ [s],
     { acc.2 with sessions := acc.2.sessions ++ [s], nextSessionId := acc.2.nextSessionId + 1 }))

/-- `ScheduleManager.create_sessions_from_ai_schedule`: nested loops over days
and their descriptors, returning (created sessions, updated store). -/
def createSessionsFromAISchedule (st : Store) (sched : List AIDaySchedule) (now : ℚ) :
    List StudySession × Store :=
  sched.foldl (fun acc d => d.sessions.foldl (materializeStep d.date now) acc) ([], st)

/-! ### Progress engine (get_study_progress) -/

/-- Round half to even at integer precision (Python's `round` tie rule). -/
def roundHalfEven (q : ℚ) : ℤ :=
  if q - ⌊q⌋ < 1/2 then ⌊q⌋
  else if 1/2 < q - ⌊q⌋ then ⌊q⌋ + 1
  else if ⌊q⌋ % 2 = 0 then ⌊q⌋ else ⌊q⌋ + 1

/-- Python's `round(q, d)` on exact values. -/
def pyRound (q : ℚ) (d : ℕ) : ℚ :=
  (roundHalfEven (q * 10 ^ d) : ℚ) / 10 ^ d

/-- `Subject.query.order_by(Subject.exam_date).first()`: the subject with the
smallest exam date (the first such, under a stable sort). -/
def Store.earliestExamSubject (st : Store) : Option Subject :=
  st.subjects.foldl (fun acc s =>
    match acc with
    | none => some s
    | some b => if s.examDate < b.examDate then some s else some b) none

/-- The `(exam_date - now).days` of Python: `timedelta.days` floors. -/
def daysBetween (later now : ℚ) : ℤ :=
  ⌊(later - now) / 1440⌋

/-- The record returned by `get_study_progress` (the `next_session`
projection is the session entity itself here). -/
structure ProgressReport where
  totalSessions : ℕ
  completedSessions : ℕ
  missedSessions : ℕ
  pendingSessions : ℤ
  totalChapters : ℕ
  completedChapters : ℕ
  completionRate : ℚ
  daysRemaining : ℤ
  nextSession : Option StudySession
  avgDailyProgress : ℚ
deriving DecidableEq

/-- Earliest future session with status in {scheduled, rescheduled}
(`order_by(scheduled_date).first()` over the filtered sessions). -/
def Store.nextUpcomingSession (st : Store) (now : ℚ) : Option StudySession :=
  (st.sessions.filter (fun s =>
    now ≤ s.scheduledDate && (s.status == "scheduled" || s.status == "rescheduled"))).foldl
    (fun acc s =>
      match acc with
      | none => some s
      | some b => if s.scheduledDate < b.scheduledDate then some s else some b) none

/-- `ScheduleManager.get_study_progress`. -/
def getStudyProgress (st : Store) (now : ℚ) : ProgressReport :=
  let totalSessions := st.sessions.length
  let completedSessions := (st.sessions.filter (fun s => s.status == "completed")).length
  let missedSessions := (st.sessions.filter (fun s => s.status == "missed")).length
  let daysRemaining : ℤ :=
    st.earliestExamSubject.elim 0 (fun subj => daysBetween subj.examDate now)
  let completionRate : ℚ :=
    if 0 < totalSessions then (completedSessions : ℚ) / (totalSessions : ℚ) * 100 else 0
  { totalSessions := totalSessions
    completedSessions := completedSessions
    missedSessions := missedSessions
    pendingSessions := (totalSessions : ℤ) - (completedSessions : ℤ) - (missedSessions : ℤ)
    totalChapters := st.chapters.length
    completedChapters := (st.chapters.filter (fun c => c.isCompleted)).length
    completionRate := pyRound completionRate 1
    daysRemaining := max 0 daysRemaining
    nextSession := st.nextUpcomingSession now
    avgDailyProgress :=
      if 0 < daysRemaining then pyRound (completionRate / (max 1 daysRemaining : ℤ)) 2 else 0 }

/-! ### Operation sequences (for the status-transition invariant) -/

/-- One mutating operation on the store. -/
inductive Op where
  | markCompleted (sid : ℕ) (notes : Option String) (now : ℚ)
  | markMissed (sid : ℕ) (reason : Option String) (now : ℚ)
  | adapt (plan : AdaptationPlan) (sid : ℕ) (reason : String) (now : ℚ)

/-- Apply one operation (dropping the success flag). -/
def applyOp (st : Store) : Op → Store
  | .markCompleted sid notes now => (markSessionCompleted st sid notes now).2
  | .markMissed sid reason now => (markSessionMissed st sid reason now).2
  | .adapt plan sid reason now => (applyScheduleAdaptation st plan sid reason now).2

/-- Apply a sequence of operations from left to right. -/
def applyOps (st : Store) (ops : List Op) : Store :=
  ops.foldl applyOp st


/-! ### Derived definitions used by the statements -/

/-- Total duration of a day's fallback session descriptors. -/
def sumHours (ss : List FallbackSession) : ℚ :=
  (ss.map (fun s => s.durationHours)).sum

/-- Total estimated hours of a chapter list. -/
def sumEstimated (cs : List FallbackChapter) : ℚ :=
  (cs.map (fun c => c.estimatedHours)).sum

/-- How many sessions a produced schedule assigns to the chapter titled `t`. -/
def assignedCount (sched : List DaySchedule) (t : String) : ℕ :=
  (sched.flatMap (fun d => d.sessions)).countP (fun s => s.chapterTitle == t)

/-- Per-index relation between the session table before and after one
adaptation application: every pre-existing row keeps its position and id, and
is either untouched or moved from `scheduled` to `rescheduled`. -/
def SessionsEvolve (l l' : List StudySession) : Prop :=
  ∀ (i : ℕ) (s : StudySession), l[i]? = some s →
    ∃ s', l'[i]? = some s' ∧ s'.id = s.id ∧
      (s' = s ∨ (s.status = "scheduled" ∧ s'.status = "rescheduled"))

/-- Spec-side description (for the refinement statement about the
materializer): the resolvable descriptors of a schedule structure, in order,
each paired with its day's date and the chapter it resolves to in `st`. -/
def resolvedDescriptorsSpec (st : Store) (sched : List AIDaySchedule) :
    List (ℤ × AISessionData × Chapter) :=
  sched.flatMap (fun d => d.sessions.filterMap (fun sd =>
    (st.findChapterByTitle sd.chapterTitle).map (fun ch => (d.date, sd, ch))))

/-- Spec-side sequential materialization of the resolved descriptors, with
consecutive fresh primary keys starting at `n`. -/
def specMaterialize (now : ℚ) : ℕ → List (ℤ × AISessionData × Chapter) → List StudySession
  | _, [] => []
  | n, t :: rest => materializedSession t.1 t.2.1 t.2.2 n now :: specMaterialize now (n + 1) rest

/-! ### Concrete inputs for witnesses and counterexamples -/

/-- Chapters of the spec's fallback-schedule scenario (2.0h, 3.0h, 1.0h). -/
def scA : FallbackChapter := ⟨"Chapter 1", "S", 2⟩

def scB : FallbackChapter := ⟨"Chapter 2", "S", 3⟩

def scC : FallbackChapter := ⟨"Chapter 3", "S", 1⟩

/-- Three 2-hour chapters: a multi-day capacity counterexample input. -/
def tcA : FallbackChapter := ⟨"a", "S", 2⟩

def tcB : FallbackChapter := ⟨"b", "S", 2⟩

def tcC : FallbackChapter := ⟨"c", "S", 2⟩

/-- A missed session whose original time of day is 09:00. -/
def wMissed : MissedSessionInfo := ⟨"Algebra", 0, 540, 2, "illness"⟩

/-- Shorthand session row constructor for concrete stores. -/
def mkSess (i : ℕ) (ch : ℕ) (stat : String) : StudySession :=
  { id := i, chapterId := ch, scheduledDate := 0, durationHours := 2, status := stat,
    actualStartTime := none, actualEndTime := none, notes := none, createdAt := 0, updatedAt := 0 }

/-- Store with three sessions (one completed) and an exam three days out. -/
def st6 : Store :=
  { subjects := [⟨1, "S", 4320⟩]
    chapters := [⟨1, 1, "A", 2, false⟩]
    sessions := [mkSess 1 1 "completed", mkSess 2 1 "scheduled", mkSess 3 1 "scheduled"]
    adaptations := []
    nextSessionId := 4
    nextAdaptationId := 1 }

/-- Store with a missed session for chapter A and a scheduled one for B. -/
def stX : Store :=
  { subjects := []
    chapters := [⟨1, 1, "A", 2, false⟩, ⟨2, 1, "B", 2, false⟩]
    sessions := [mkSess 1 1 "missed", mkSess 2 2 "scheduled"]
    adaptations := []
    nextSessionId := 3
    nextAdaptationId := 1 }

/-- Adaptation plan with a reschedule block (+0.5h) and one adjustment. -/
def planX : AdaptationPlan :=
  { adaptationPlan := some
      { rescheduleMissed := some ⟨some 10, some 840, some (1/2), none⟩
        scheduleAdjustments := [⟨some "reschedule", some "B", some 11, some 600⟩] }
    reasoning := some "because" }

/-- Adaptation plan whose reschedule block lacks `new_time` (raises). -/
def planErr : AdaptationPlan :=
  { adaptationPlan := some
      { rescheduleMissed := some ⟨some 10, none, none, none⟩
        scheduleAdjustments := [] }
    reasoning := none }

/-- The store `applyScheduleAdaptation stX planX 1 "missed_session: illness" 100`
produces: one audit row, session 2 moved in place to day 11 10:00 and
`rescheduled`, and a brand-new session (id 3) for chapter 1 at day 10 14:00
with duration 2 + 0.5. -/
def stXresult : Store :=
  { subjects := []
    chapters := [⟨1, 1, "A", 2, false⟩, ⟨2, 1, "B", 2, false⟩]
    sessions :=
      [mkSess 1 1 "missed",
       { mkSess 2 2 "scheduled" with
          scheduledDate := 16440, status := "rescheduled", updatedAt := 100 },
       { id := 3, chapterId := 1, scheduledDate := 15240, durationHours := 5/2,
         status := "rescheduled", actualStartTime := none, actualEndTime := none,
         notes := none, createdAt := 100, updatedAt := 100 }]
    adaptations := [⟨1, 1, "missed_session: illness", "because", planX, 100⟩]
    nextSessionId := 4
    nextAdaptationId := 2 }

/-- Store with a single still-`scheduled` session. -/
def stC2 : Store :=
  { subjects := []
    chapters := [⟨1, 1, "A", 2, false⟩]
    sessions := [mkSess 1 1 "scheduled"]
    adaptations := []
    nextSessionId := 2
    nextAdaptationId := 1 }

end StudyAgent

/-! ## Supporting lemmas -/

namespace StudyAgent

theorem sumEstimated_nonneg (l : List FallbackChapter)
    (h : ∀ c ∈ l, 0 ≤ c.estimatedHours) : 0 ≤ sumEstimated l := by
  refine List.sum_nonneg ?_
  intro x hx
  obtain ⟨c, hc, rfl⟩ := List.mem_map.mp hx
  exact h c hc

theorem fillDay_sum_le (l : List FallbackChapter) :
    ∀ rem : ℚ, (∀ c ∈ l, 0 ≤ c.estimatedHours) → 0 ≤ rem →
      sumHours (fillDay rem l).1 ≤ rem := by
  induction l with
  | nil => intro rem _ hrem; simpa [fillDay, sumHours] using hrem
  | cons c rest ih =>
    intro rem hnn hrem
    have hc0 : 0 ≤ c.estimatedHours := hnn c (List.mem_cons_self c rest)
    have hrest : ∀ x ∈ rest, 0 ≤ x.estimatedHours :=
      fun x hx => hnn x (List.mem_cons_of_mem c hx)
    by_cases hc : c.estimatedHours ≤ rem
    · have h1 := ih (rem - c.estimatedHours) hrest (by linarith)
      simp only [fillDay, if_pos hc, sumHours, List.map_cons, List.sum_cons,
        fallbackSessionOf] at h1 ⊢
      linarith
    · have h1 := ih rem hrest hrem
      simpa [fillDay, if_neg hc] using h1

theorem fillDay_pending_mem (l : List FallbackChapter) :
    ∀ (rem : ℚ) (c : FallbackChapter), c ∈ (fillDay rem l).2 → c ∈ l := by
  induction l with
  | nil => intro rem c h; simp [fillDay] at h
  | cons a rest ih =>
    intro rem c h
    by_cases ha : a.estimatedHours ≤ rem
    · simp only [fillDay, if_pos ha] at h
      exact List.mem_cons_of_mem a (ih _ c h)
    · simp only [fillDay, if_neg ha, List.mem_cons] at h
      rcases h with h | h
      · exact h ▸ List.mem_cons_self a rest
      · exact List.mem_cons_of_mem a (ih _ c h)

theorem fillDay_all_fit (l : List FallbackChapter) :
    ∀ rem : ℚ, (∀ c ∈ l, 0 ≤ c.estimatedHours) → sumEstimated l ≤ rem →
      fillDay rem l = (l.map fallbackSessionOf, []) := by
  induction l with
  | nil => intro rem _ _; simp [fillDay]
  | cons c rest ih =>
    intro rem hnn hsum
    have hrest : ∀ x ∈ rest, 0 ≤ x.estimatedHours :=
      fun x hx => hnn x (List.mem_cons_of_mem c hx)
    have hsr : 0 ≤ sumEstimated rest := sumEstimated_nonneg rest hrest
    have hcons : sumEstimated (c :: rest) = c.estimatedHours + sumEstimated rest := by
      simp [sumEstimated]
    have hc : c.estimatedHours ≤ rem := by rw [hcons] at hsum; linarith
    have h2 : sumEstimated rest ≤ rem - c.estimatedHours := by rw [hcons] at hsum; linarith
    simp [fillDay, if_pos hc, ih (rem - c.estimatedHours) hrest h2]

theorem fallbackScheduleAux_nil (dailyHours : ℚ) (endDate : ℤ) (fuel : ℕ) (current : ℤ) :
    fallbackScheduleAux dailyHours endDate fuel current [] = [] := by
  cases fuel <;> simp [fallbackScheduleAux]

theorem fallbackScheduleAux_day_le (dailyHours : ℚ) (endDate : ℤ) (hd : 0 ≤ dailyHours) :
    ∀ (fuel : ℕ) (current : ℤ) (queue : List FallbackChapter),
      (∀ c ∈ queue, 0 ≤ c.estimatedHours) →
      ∀ day ∈ fallbackScheduleAux dailyHours endDate fuel current queue,
        sumHours day.sessions ≤ dailyHours := by
  intro fuel
  induction fuel with
  | zero => intro current queue _ day hday; simp [fallbackScheduleAux] at hday
  | succ n ih =>
    intro current queue hnn day hday
    simp only [fallbackScheduleAux] at hday
    by_cases hq : queue = [] ∨ endDate < current
    · rw [if_pos hq] at hday; simp at hday
    · rw [if_neg hq] at hday
      have hpend : ∀ c ∈ (fillDay dailyHours queue).2, 0 ≤ c.estimatedHours :=
        fun c hc => hnn c (fillDay_pending_mem queue dailyHours c hc)
      have hrest := ih (current + 1) (fillDay dailyHours queue).2 hpend day
      by_cases h1 : (fillDay dailyHours queue).1 = []
      · rw [if_pos h1] at hday
        exact hrest hday
      · rw [if_neg h1] at hday
        rcases List.mem_cons.mp hday with rfl | hmem
        · exact fillDay_sum_le queue dailyHours hnn hd
        · exact hrest hmem

end StudyAgent

/-! ## Claim theorems: fallback generators -/

namespace StudyAgent

/-- C9: with a daily budget of 4.0 hours and chapters of 2.0h, 3.0h, 1.0h in
that order starting at day 0 (end day 1), the fallback scheduler puts
chapters 1 and 3 on day 0 (2.0 + 1.0 = 3.0 ≤ 4.0, while chapter 2's 3.0h
would exceed the budget) and chapter 2 on day 1 — the greedy in-order rule. -/
theorem claim9_fallback_schedule_scenario :
    fallbackSchedule [scA, scB, scC] 0 1 4 =
      [⟨0, [fallbackSessionOf scA, fallbackSessionOf scC]⟩,
       ⟨1, [fallbackSessionOf scB]⟩] := by
  norm_num [fallbackSchedule, fallbackScheduleAux, fillDay, scA, scB, scC]
  simp

/-- C3 (counterexample): with a daily budget of 3 hours, days 0..1 (two days)
and three 2-hour chapters, the total 6 = 2+2+2 fits the claimed capacity
3 × 2, yet the greedy pass assigns chapter "c" to no day at all, refuting
"the fallback scheduler assigns every input chapter to exactly one day". -/
theorem claim3_counterexample :
    sumEstimated [tcA, tcB, tcC] ≤ 3 * (((1 : ℤ) - 0 + 1) : ℚ) ∧
    assignedCount (fallbackSchedule [tcA, tcB, tcC] 0 1 3) "c" = 0 ∧
    tcC.title = "c" := by
  refine ⟨by norm_num [sumEstimated, tcA, tcB, tcC], ?_, rfl⟩
  have h : fallbackSchedule [tcA, tcB, tcC] 0 1 3 =
      [⟨0, [fallbackSessionOf tcA]⟩, ⟨1, [fallbackSessionOf tcB]⟩] := by
    norm_num [fallbackSchedule, fallbackScheduleAux, fillDay, tcA, tcB, tcC]
    simp
  rw [h]
  simp only [assignedCount, fallbackSessionOf, tcA, tcB]
  decide

/-- C3 (amended): with nonnegative chapter hours and budget, every day the
fallback scheduler emits stays within the daily budget; and whenever the
chapters' total estimated hours fit into a single day's budget (and the date
range is nonempty), every chapter is assigned exactly once, all on the first
day.  Coverage for multi-day capacity does not hold in general (see the
counterexample). -/
theorem claim3_fallback_schedule_amended
    (chapters : List FallbackChapter) (startDate endDate : ℤ) (dailyHours : ℚ)
    (hnn : ∀ c ∈ chapters, 0 ≤ c.estimatedHours) (hd : 0 ≤ dailyHours) :
    (∀ day ∈ fallbackSchedule chapters startDate endDate dailyHours,
        sumHours day.sessions ≤ dailyHours) ∧
    (sumEstimated chapters ≤ dailyHours → startDate ≤ endDate →
      fallbackSchedule chapters startDate endDate dailyHours =
        if chapters = [] then []
        else [{ date := startDate, sessions := chapters.map fallbackSessionOf }]) := by
  constructor
  · exact fallbackScheduleAux_day_le dailyHours endDate hd _ startDate chapters hnn
  · intro hsum hse
    obtain ⟨k, hk⟩ : ∃ k, (endDate + 1 - startDate).toNat = k + 1 := by
      refine ⟨(endDate + 1 - startDate).toNat - 1, ?_⟩
      omega
    by_cases hch : chapters = []
    · subst hch
      simp [fallbackSchedule, fallbackScheduleAux_nil]
    · rw [fallbackSchedule, hk]
      have hfd := fillDay_all_fit chapters dailyHours hnn hsum
      have hnotlt : ¬(endDate < startDate) := not_lt.mpr hse
      simp only [fallbackScheduleAux, hfd, if_neg (not_or.mpr ⟨hch, hnotlt⟩)]
      have hmapne : chapters.map fallbackSessionOf ≠ [] := by
        simpa using hch
      simp [fallbackScheduleAux_nil, hmapne, hch]

/-- C3 (witness for the amended theorem): one 2-hour chapter, budget 2,
single-day range 0..0: the day stays within budget and the chapter is
scheduled exactly once on day 0. -/
theorem claim3_amended_witness :
    (∀ day ∈ fallbackSchedule [tcA] 0 0 2, sumHours day.sessions ≤ 2) ∧
    fallbackSchedule [tcA] 0 0 2 = [{ date := 0, sessions := [fallbackSessionOf tcA] }] := by
  have h := claim3_fallback_schedule_amended [tcA] 0 0 2
    (by intro c hc; simp at hc; subst hc; norm_num [tcA]) (by norm_num)
  refine ⟨h.1, ?_⟩
  have h2 := h.2 (by norm_num [sumEstimated, tcA]) le_rfl
  simpa using h2

/-- C4 (counterexample): the adaptation fallback reschedules to the fixed
time 14:00 (840 minutes), not to the missed session's own time of day — for
a session originally at 09:00 (540) the returned time is 840 ≠ 540. -/
theorem claim4_counterexample :
    ((fallbackAdaptation wMissed [] 0).rescheduleInfo.bind (fun i => i.newTime)) = some 840 ∧
    wMissed.startTime = 540 ∧
    ((fallbackAdaptation wMissed [] 0).rescheduleInfo.bind (fun i => i.newTime)) ≠
      some wMissed.startTime := by
  refine ⟨?_, rfl, ?_⟩ <;>
    simp [fallbackAdaptation, AdaptationPlan.rescheduleInfo, wMissed]

/-- C4 (amended): for every missed-session record, the adaptation fallback
returns a plan whose reschedule block targets the next calendar day from
`now` at the fixed time 14:00 (not the session's original time of day), with
duration adjustment 0 and no other schedule adjustments. -/
theorem claim4_fallback_adaptation_amended (ms : MissedSessionInfo)
    (ups : List UpcomingSessionInfo) (now : ℚ) :
    (fallbackAdaptation ms ups now).rescheduleInfo = some
      { newDate := some (⌊now / 1440⌋ + 1)
        newTime := some 840
        durationAdjustment := some 0
        reasoning := some "Rescheduled to next available day" } ∧
    (fallbackAdaptation ms ups now).adjustments = [] := by
  constructor
  · have h1440 : (now + 1440) / 1440 = now / 1440 + 1 := by ring
    simp [fallbackAdaptation, AdaptationPlan.rescheduleInfo, h1440, Int.floor_add_one]
  · simp [fallbackAdaptation, AdaptationPlan.adjustments]

end StudyAgent

/-! ## Claim theorems: progress engine -/

namespace StudyAgent

theorem pyRound_zero (d : ℕ) : pyRound 0 d = 0 := by
  norm_num [pyRound, roundHalfEven, -Int.self_sub_floor]

theorem earliestExamFold_min (l : List Subject) :
    ∀ b : Subject,
      ∃ m, l.foldl (fun acc s =>
          match acc with
          | none => some s
          | some b => if s.examDate < b.examDate then some s else some b) (some b) = some m ∧
        (m = b ∨ m ∈ l) ∧ m.examDate ≤ b.examDate ∧ ∀ t ∈ l, m.examDate ≤ t.examDate := by
  induction l with
  | nil => intro b; exact ⟨b, rfl, Or.inl rfl, le_rfl, by simp⟩
  | cons s rest ih =>
    intro b
    by_cases hs : s.examDate < b.examDate
    · obtain ⟨m, hm, hmem, hle, hall⟩ := ih s
      refine ⟨m, by simpa [hs] using hm, ?_, le_trans hle (le_of_lt hs), ?_⟩
      · rcases hmem with rfl | hmem
        · exact Or.inr (List.mem_cons_self _ _)
        · exact Or.inr (List.mem_cons_of_mem _ hmem)
      · intro t ht
        rcases List.mem_cons.mp ht with rfl | ht
        · exact hle
        · exact hall t ht
    · obtain ⟨m, hm, hmem, hle, hall⟩ := ih b
      refine ⟨m, by simpa [hs] using hm, ?_, hle, ?_⟩
      · rcases hmem with rfl | hmem
        · exact Or.inl rfl
        · exact Or.inr (List.mem_cons_of_mem _ hmem)
      · intro t ht
        rcases List.mem_cons.mp ht with rfl | ht
        · exact le_trans hle (not_lt.mp hs)
        · exact hall t ht

theorem earliestExamSubject_min (st : Store) (subj : Subject)
    (h : st.earliestExamSubject = some subj) :
    subj ∈ st.subjects ∧ ∀ t ∈ st.subjects, subj.examDate ≤ t.examDate := by
  unfold Store.earliestExamSubject at h
  cases hl : st.subjects with
  | nil => rw [hl] at h; simp at h
  | cons s rest =>
    rw [hl] at h
    simp only [List.foldl_cons] at h
    obtain ⟨m, hm, hmem, hle, hall⟩ := earliestExamFold_min rest s
    rw [hm] at h
    obtain rfl : m = subj := by injection h
    constructor
    · rcases hmem with rfl | hmem
      · exact List.mem_cons_self _ _
      · exact List.mem_cons_of_mem _ hmem
    · intro t ht
      rcases List.mem_cons.mp ht with rfl | ht
      · exact hle
      · exact hall t ht

/-- C6 (counterexample): store with 3 sessions, 1 completed, exam 3 days
out.  The returned completion rate is 33.3 and the returned average daily
progress is 11.11 — but composing the *returned* (rounded) completion rate
with the claimed formula round(completion_rate / days_remaining, 2) gives
11.1, because the code divides the unrounded rate 100/3.  The claim as
stated (with completion_rate = round(C/T*100, 1)) therefore fails here. -/
theorem claim6_counterexample :
    (getStudyProgress st6 0).completionRate = 333/10 ∧
    (getStudyProgress st6 0).daysRemaining = 3 ∧
    (getStudyProgress st6 0).avgDailyProgress = 1111/100 ∧
    pyRound ((getStudyProgress st6 0).completionRate /
      (((getStudyProgress st6 0).daysRemaining : ℤ) : ℚ)) 2 = 111/10 ∧
    (getStudyProgress st6 0).avgDailyProgress ≠
      pyRound ((getStudyProgress st6 0).completionRate /
        (((getStudyProgress st6 0).daysRemaining : ℤ) : ℚ)) 2 := by
  refine ⟨?_, ?_, ?_, ?_, ?_⟩ <;>
    · simp [getStudyProgress, st6, mkSess, Store.earliestExamSubject, daysBetween,
        Store.nextUpcomingSession]
      norm_num [pyRound, roundHalfEven, -Int.self_sub_floor]

end StudyAgent

namespace StudyAgent

/-- C6 (amended): for a store with `T` sessions of which `C` are completed
and `M` missed, the progress report returns those three counts,
`pending = T - C - M`, `completion_rate = round(C/T*100, 1)` for `T > 0` and
`0` for `T = 0`, `days_remaining = max 0 (days until the earliest subject
exam date)` (`0` with no subjects), and
`avg_daily_progress = round((C/T*100) / days_remaining, 2)` when
`days_remaining > 0`, else `0` — the division uses the *unrounded* rate
`C/T*100`, not the rounded `completion_rate` field (see the
counterexample). -/
theorem claim6_progress_amended (st : Store) (now : ℚ) :
    (getStudyProgress st now).totalSessions = st.sessions.length ∧
    (getStudyProgress st now).completedSessions =
      (st.sessions.filter (fun s => s.status == "completed")).length ∧
    (getStudyProgress st now).missedSessions =
      (st.sessions.filter (fun s => s.status == "missed")).length ∧
    (getStudyProgress st now).pendingSessions =
      (st.sessions.length : ℤ)
        - ((st.sessions.filter (fun s => s.status == "completed")).length : ℤ)
        - ((st.sessions.filter (fun s => s.status == "missed")).length : ℤ) ∧
    (getStudyProgress st now).completionRate =
      (if 0 < st.sessions.length then
        pyRound (((st.sessions.filter (fun s => s.status == "completed")).length : ℚ)
          / (st.sessions.length : ℚ) * 100) 1
      else 0) ∧
    (st.subjects = [] → (getStudyProgress st now).daysRemaining = 0) ∧
    (∀ subj, st.earliestExamSubject = some subj →
      subj ∈ st.subjects ∧ (∀ t ∈ st.subjects, subj.examDate ≤ t.examDate) ∧
      (getStudyProgress st now).daysRemaining = max 0 (daysBetween subj.examDate now)) ∧
    (getStudyProgress st now).avgDailyProgress =
      (if 0 < (getStudyProgress st now).daysRemaining then
        pyRound ((if 0 < st.sessions.length then
            ((st.sessions.filter (fun s => s.status == "completed")).length : ℚ)
              / (st.sessions.length : ℚ) * 100
          else 0) / (((getStudyProgress st now).daysRemaining : ℤ) : ℚ)) 2
      else 0) := by
  refine ⟨rfl, rfl, rfl, rfl, ?_, ?_, ?_, ?_⟩
  · simp only [getStudyProgress]
    by_cases hT : 0 < st.sessions.length
    · simp [hT]
    · simp [hT, pyRound_zero]
  · intro hs
    simp [getStudyProgress, Store.earliestExamSubject, hs]
  · intro subj hsubj
    obtain ⟨hmem, hmin⟩ := earliestExamSubject_min st subj hsubj
    refine ⟨hmem, hmin, ?_⟩
    simp [getStudyProgress, hsubj]
  · simp only [getStudyProgress]
    cases hsubj : st.earliestExamSubject with
    | none => simp
    | some subj =>
      simp only [Option.elim_some]
      by_cases hpos : 0 < daysBetween subj.examDate now
      · have hmax0 : max 0 (daysBetween subj.examDate now) = daysBetween subj.examDate now :=
          max_eq_right (le_of_lt hpos)
        have hmax1 : max 1 (daysBetween subj.examDate now) = daysBetween subj.examDate now :=
          max_eq_right hpos
        simp only [hmax0, hmax1, if_pos hpos]
      · have hmax0 : max 0 (daysBetween subj.examDate now) = 0 :=
          max_eq_left (not_lt.mp hpos)
        simp [hmax0, if_neg hpos]

end StudyAgent

/-! ## Supporting lemmas: adaptation machinery -/

namespace StudyAgent

theorem exceptBindOk {α β : Type} (a : α) (f : α → Except String β) :
    (Except.ok a >>= f) = f a := rfl

theorem exceptBindError {α β : Type} (e : String) (f : α → Except String β) :
    ((Except.error e : Except String α) >>= f) = Except.error e := rfl

theorem exceptPureEq {α : Type} (a : α) : (pure a : Except String α) = Except.ok a := rfl

theorem getElem?_append_left' {α : Type} (l l2 : List α) (i : ℕ) (a : α)
    (h : l[i]? = some a) : (l ++ l2)[i]? = some a := by
  have hlt : i < l.length := (List.getElem?_eq_some.mp h).1
  rw [List.getElem?_append, if_pos hlt]
  exact h

theorem getElem?_append_self {α : Type} (l : List α) (x : α) :
    (l ++ [x])[l.length]? = some x := by
  induction l with
  | nil => rfl
  | cons a rest ih => simpa using ih

theorem sessionsEvolve_refl (l : List StudySession) : SessionsEvolve l l :=
  fun _ s h => ⟨s, h, rfl, Or.inl rfl⟩

theorem sessionsEvolve_trans {a b c : List StudySession}
    (h1 : SessionsEvolve a b) (h2 : SessionsEvolve b c) : SessionsEvolve a c := by
  intro i s hs
  obtain ⟨s1, hb, hid1, hd1⟩ := h1 i s hs
  obtain ⟨s2, hc, hid2, hd2⟩ := h2 i s1 hb
  refine ⟨s2, hc, hid2.trans hid1, ?_⟩
  rcases hd1 with rfl | ⟨hsch, hres⟩
  · exact hd2
  · rcases hd2 with rfl | ⟨hsch2, _⟩
    · exact Or.inr ⟨hsch, hres⟩
    · rw [hres] at hsch2
      exact absurd hsch2 (by decide)

theorem sessionsEvolve_append (l l2 : List StudySession) : SessionsEvolve l (l ++ l2) :=
  fun i s h => ⟨s, getElem?_append_left' l l2 i s h, rfl, Or.inl rfl⟩

theorem rescheduleFirstScheduled_evolve (chId : ℕ) (dt now : ℚ) :
    ∀ l l' : List StudySession, rescheduleFirstScheduled chId dt now l = some l' →
      l'.length = l.length ∧ SessionsEvolve l l' := by
  intro l
  induction l with
  | nil => intro l' h; simp [rescheduleFirstScheduled] at h
  | cons s rest ih =>
    intro l' h
    by_cases hc : (s.chapterId == chId && s.status == "scheduled") = true
    · rw [rescheduleFirstScheduled, if_pos hc] at h
      have hx := Option.some_inj.mp h
      subst hx
      have hsch : s.status = "scheduled" := by
        have := (Bool.and_eq_true (s.chapterId == chId) (s.status == "scheduled")).mp hc
        exact eq_of_beq this.2
      refine ⟨rfl, ?_⟩
      intro i x hx
      cases i with
      | zero =>
        obtain rfl : s = x := by simpa using hx
        refine ⟨_, List.getElem?_cons_zero, rfl, Or.inr ⟨hsch, rfl⟩⟩
      | succ n =>
        simp only [List.getElem?_cons_succ] at hx ⊢
        exact ⟨x, hx, rfl, Or.inl rfl⟩
    · rw [rescheduleFirstScheduled, if_neg hc] at h
      obtain ⟨rest', hrest, rfl⟩ := Option.map_eq_some'.mp h
      obtain ⟨hlen, hev⟩ := ih rest' hrest
      refine ⟨by simpa using hlen, ?_⟩
      intro i x hx
      cases i with
      | zero =>
        obtain rfl : s = x := by simpa using hx
        exact ⟨s, List.getElem?_cons_zero, rfl, Or.inl rfl⟩
      | succ n =>
        simp only [List.getElem?_cons_succ] at hx ⊢
        exact hev n x hx

end StudyAgent

namespace StudyAgent

theorem exceptOkInj {α : Type} {a b : α}
    (h : (Except.ok a : Except String α) = Except.ok b) : a = b := by
  injection h

theorem foldlM_nil' {α σ : Type} (f : σ → α → Except String σ) (s : σ) :
    List.foldlM f s [] = pure s := rfl

theorem foldlM_cons' {α σ : Type} (f : σ → α → Except String σ) (s : σ) (a : α)
    (l : List α) :
    List.foldlM f s (a :: l) = (f s a >>= fun s' => List.foldlM f s' l) := rfl

/-- Everything one `schedule_adjustments` iteration can do on success: only
the session rows change, with positions, count and ids kept, and each touched
row moved `scheduled → rescheduled`. -/
theorem applyAdjustment_ok (now : ℚ) (st : Store) (adj : Adjustment) (st' : Store)
    (h : applyAdjustment now st adj = .ok st') :
    st'.subjects = st.subjects ∧ st'.chapters = st.chapters ∧
    st'.adaptations = st.adaptations ∧ st'.nextSessionId = st.nextSessionId ∧
    st'.nextAdaptationId = st.nextAdaptationId ∧
    st'.sessions.length = st.sessions.length ∧ SessionsEvolve st.sessions st'.sessions := by
  rw [applyAdjustment] at h
  cases hct : adj.changeType with
  | none => rw [hct] at h; simp [req, exceptBindError] at h
  | some ct =>
    rw [hct] at h
    simp only [req, Option.elim_some, exceptBindOk] at h
    by_cases hres : ct = "reschedule"
    · rw [if_pos hres] at h
      cases hos : adj.originalSession with
      | none => rw [hos] at h; simp [req, exceptBindError] at h
      | some title =>
        rw [hos] at h
        simp only [req, Option.elim_some, exceptBindOk] at h
        cases hch : st.findChapterByTitle title with
        | none =>
          rw [hch] at h
          simp only [Option.elim_none, exceptPureEq] at h
          obtain rfl := exceptOkInj h
          exact ⟨rfl, rfl, rfl, rfl, rfl, rfl, sessionsEvolve_refl _⟩
        | some ch =>
          rw [hch] at h
          simp only [Option.elim_some] at h
          by_cases hfs : (st.sessions.find?
              (fun s => s.chapterId == ch.id && s.status == "scheduled")).isSome = true
          · rw [if_pos hfs] at h
            cases hnd : adj.newDate with
            | none => rw [hnd] at h; simp [req, exceptBindError] at h
            | some d =>
              rw [hnd] at h
              simp only [req, Option.elim_some, exceptBindOk] at h
              cases hnt : adj.newTime with
              | none => rw [hnt] at h; simp [req, exceptBindError] at h
              | some t =>
                rw [hnt] at h
                simp only [req, Option.elim_some, exceptBindOk, exceptPureEq] at h
                cases hrfs : rescheduleFirstScheduled ch.id ((d : ℚ) * 1440 + (t : ℚ))
                    now st.sessions with
                | none =>
                  rw [hrfs] at h
                  simp only [Option.elim_none] at h
                  obtain rfl := exceptOkInj h
                  exact ⟨rfl, rfl, rfl, rfl, rfl, rfl, sessionsEvolve_refl _⟩
                | some ss =>
                  rw [hrfs] at h
                  simp only [Option.elim_some] at h
                  obtain rfl := exceptOkInj h
                  obtain ⟨hlen, hev⟩ :=
                    rescheduleFirstScheduled_evolve ch.id ((d : ℚ) * 1440 + (t : ℚ))
                      now st.sessions ss hrfs
                  exact ⟨rfl, rfl, rfl, rfl, rfl, hlen, hev⟩
          · rw [if_neg hfs] at h
            simp only [exceptPureEq] at h
            obtain rfl := exceptOkInj h
            exact ⟨rfl, rfl, rfl, rfl, rfl, rfl, sessionsEvolve_refl _⟩
    · rw [if_neg hres] at h
      simp only [exceptPureEq] at h
      obtain rfl := exceptOkInj h
      exact ⟨rfl, rfl, rfl, rfl, rfl, rfl, sessionsEvolve_refl _⟩

/-- Folding the whole `schedule_adjustments` loop preserves the same shape. -/
theorem foldlM_adjust_ok (now : ℚ) :
    ∀ (l : List Adjustment) (st st' : Store),
      List.foldlM (applyAdjustment now) st l = .ok st' →
      st'.subjects = st.subjects ∧ st'.chapters = st.chapters ∧
      st'.adaptations = st.adaptations ∧ st'.nextSessionId = st.nextSessionId ∧
      st'.nextAdaptationId = st.nextAdaptationId ∧
      st'.sessions.length = st.sessions.length ∧
      SessionsEvolve st.sessions st'.sessions := by
  intro l
  induction l with
  | nil =>
    intro st st' h
    rw [foldlM_nil'] at h
    obtain rfl := exceptOkInj h
    exact ⟨rfl, rfl, rfl, rfl, rfl, rfl, sessionsEvolve_refl _⟩
  | cons a rest ih =>
    intro st st' h
    rw [foldlM_cons'] at h
    cases ha : applyAdjustment now st a with
    | error e => rw [ha] at h; simp [exceptBindError] at h
    | ok st1 =>
      rw [ha] at h
      rw [exceptBindOk] at h
      obtain ⟨h1, h2, h3, h4, h5, h6, h7⟩ := applyAdjustment_ok now st a st1 ha
      obtain ⟨g1, g2, g3, g4, g5, g6, g7⟩ := ih st1 st' h
      exact ⟨g1.trans h1, g2.trans h2, g3.trans h3, g4.trans h4, g5.trans h5,
        g6.trans h6, sessionsEvolve_trans h7 g7⟩

end StudyAgent

namespace StudyAgent

theorem addAudit_subjects (st : Store) (plan : AdaptationPlan) (sid : ℕ)
    (reason : String) (now : ℚ) :
    (addAudit st plan sid reason now).subjects = st.subjects := rfl

theorem addAudit_chapters (st : Store) (plan : AdaptationPlan) (sid : ℕ)
    (reason : String) (now : ℚ) :
    (addAudit st plan sid reason now).chapters = st.chapters := rfl

theorem addAudit_sessions (st : Store) (plan : AdaptationPlan) (sid : ℕ)
    (reason : String) (now : ℚ) :
    (addAudit st plan sid reason now).sessions = st.sessions := rfl

theorem addAudit_adaptations (st : Store) (plan : AdaptationPlan) (sid : ℕ)
    (reason : String) (now : ℚ) :
    (addAudit st plan sid reason now).adaptations =
      st.adaptations ++ [auditRow st plan sid reason now] := rfl

theorem addRescheduled_subjects (st1 : Store) (orig : StudySession)
    (info : RescheduleInfo) (d : ℤ) (t : ℕ) (now : ℚ) :
    (addRescheduled st1 orig info d t now).subjects = st1.subjects := rfl

theorem addRescheduled_chapters (st1 : Store) (orig : StudySession)
    (info : RescheduleInfo) (d : ℤ) (t : ℕ) (now : ℚ) :
    (addRescheduled st1 orig info d t now).chapters = st1.chapters := rfl

theorem addRescheduled_adaptations (st1 : Store) (orig : StudySession)
    (info : RescheduleInfo) (d : ℤ) (t : ℕ) (now : ℚ) :
    (addRescheduled st1 orig info d t now).adaptations = st1.adaptations := rfl

theorem addRescheduled_sessions (st1 : Store) (orig : StudySession)
    (info : RescheduleInfo) (d : ℤ) (t : ℕ) (now : ℚ) :
    (addRescheduled st1 orig info d t now).sessions =
      st1.sessions ++ [rescheduledRow st1 orig info d t now] := rfl

/-- Shape of every successful (`.ok`) run of the `try` block of
`apply_schedule_adaptation`: `False` only on a failed lookup (store
untouched); `True` exactly when the original session was found, in which
case exactly one audit row is appended, pre-existing session rows evolve
only in place (`scheduled → rescheduled` at most), and a reschedule block
(when present, with both fields) appends exactly one brand-new `rescheduled`
session for the original session's chapter. -/
theorem applyCore_ok_shape (st : Store) (plan : AdaptationPlan) (sid : ℕ)
    (reason : String) (now : ℚ) (b : Bool) (st' : Store)
    (h : applyScheduleAdaptationCore st plan sid reason now = .ok (b, st')) :
    (b = false ∧ st.findSession sid = none ∧ st' = st) ∨
    (b = true ∧ ∃ orig, st.findSession sid = some orig ∧
      st'.subjects = st.subjects ∧ st'.chapters = st.chapters ∧
      st'.adaptations = st.adaptations ++ [auditRow st plan sid reason now] ∧
      SessionsEvolve st.sessions st'.sessions ∧
      (plan.rescheduleInfo = none → st'.sessions.length = st.sessions.length) ∧
      (∀ info, plan.rescheduleInfo = some info →
        ∃ d t, info.newDate = some d ∧ info.newTime = some t ∧
          st'.sessions.length = st.sessions.length + 1 ∧
          st'.sessions[st.sessions.length]? =
            some (rescheduledRow (addAudit st plan sid reason now) orig info d t now))) := by
  cases hfind : st.findSession sid with
  | none =>
    rw [applyScheduleAdaptationCore, hfind] at h
    simp only [Option.elim_none, exceptPureEq] at h
    obtain ⟨hb, hst⟩ := (Prod.mk.injEq _ _ _ _).mp (exceptOkInj h)
    exact Or.inl ⟨hb.symm, rfl, hst.symm⟩
  | some orig =>
    rw [applyScheduleAdaptationCore, hfind] at h
    simp only [Option.elim_some] at h
    cases hri : plan.rescheduleInfo with
    | none =>
      rw [hri] at h
      simp only [Option.elim_none, exceptPureEq, exceptBindOk] at h
      cases hf : List.foldlM (applyAdjustment now) (addAudit st plan sid reason now)
          plan.adjustments with
      | error e => rw [hf] at h; simp [exceptBindError] at h
      | ok st3 =>
        rw [hf, exceptBindOk] at h
        try simp only [exceptPureEq] at h
        obtain ⟨hb, hst⟩ := (Prod.mk.injEq _ _ _ _).mp (exceptOkInj h)
        subst hst
        obtain ⟨g1, g2, g3, g4, g5, g6, g7⟩ := foldlM_adjust_ok now plan.adjustments _ _ hf
        refine Or.inr ⟨hb.symm, orig, rfl, ?_, ?_, ?_, ?_, ?_, ?_⟩
        · rw [g1, addAudit_subjects]
        · rw [g2, addAudit_chapters]
        · rw [g3, addAudit_adaptations]
        · rw [addAudit_sessions st plan sid reason now] at g7
          exact g7
        · intro _
          rw [g6, addAudit_sessions]
        · intro info hinfo
          exact absurd hinfo (by simp)
    | some info =>
      rw [hri] at h
      simp only [Option.elim_some] at h
      cases hnd : info.newDate with
      | none => rw [hnd] at h; simp [req, exceptBindError] at h
      | some d =>
        rw [hnd] at h
        simp only [req, Option.elim_some, exceptBindOk] at h
        cases hnt : info.newTime with
        | none => rw [hnt] at h; simp [req, exceptBindError] at h
        | some t =>
          rw [hnt] at h
          simp only [req, Option.elim_some, exceptBindOk, exceptPureEq] at h
          cases hf : List.foldlM (applyAdjustment now)
              (addRescheduled (addAudit st plan sid reason now) orig info d t now)
              plan.adjustments with
          | error e => rw [hf] at h; simp [exceptBindError] at h
          | ok st3 =>
            rw [hf, exceptBindOk] at h
            try simp only [exceptPureEq] at h
            obtain ⟨hb, hst⟩ := (Prod.mk.injEq _ _ _ _).mp (exceptOkInj h)
            subst hst
            obtain ⟨g1, g2, g3, g4, g5, g6, g7⟩ :=
              foldlM_adjust_ok now plan.adjustments _ _ hf
            refine Or.inr ⟨hb.symm, orig, rfl, ?_, ?_, ?_, ?_, ?_, ?_⟩
            · rw [g1, addRescheduled_subjects, addAudit_subjects]
            · rw [g2, addRescheduled_chapters, addAudit_chapters]
            · rw [g3, addRescheduled_adaptations, addAudit_adaptations]
            · refine sessionsEvolve_trans ?_ g7
              rw [addRescheduled_sessions, addAudit_sessions]
              exact sessionsEvolve_append st.sessions _
            · intro hcontra
              exact absurd hcontra (by simp)
            · intro info2 hinfo2
              obtain rfl : info = info2 := by injection hinfo2
              refine ⟨d, t, hnd, hnt, ?_, ?_⟩
              · rw [g6, addRescheduled_sessions, addAudit_sessions]
                simp
              · have hbase : (addRescheduled (addAudit st plan sid reason now)
                    orig info d t now).sessions[st.sessions.length]? =
                    some (rescheduledRow (addAudit st plan sid reason now) orig info d t now) := by
                  rw [addRescheduled_sessions]
                  have := getElem?_append_self
                    (addAudit st plan sid reason now).sessions
                    (rescheduledRow (addAudit st plan sid reason now) orig info d t now)
                  rw [addAudit_sessions] at this
                  exact this
                obtain ⟨s2, hs2, hid2, hd2⟩ := g7 st.sessions.length _ hbase
                rcases hd2 with rfl | ⟨habs, _⟩
                · exact hs2
                · rw [rescheduledRow] at habs
                  simp at habs

end StudyAgent

namespace StudyAgent

theorem mem_of_getElem?' {α : Type} {l : List α} {i : ℕ} {a : α}
    (h : l[i]? = some a) : a ∈ l := by
  obtain ⟨hlt, hv⟩ := List.getElem?_eq_some.mp h
  exact hv ▸ List.getElem_mem hlt

/-- A `True` outcome of the wrapper comes from a `.ok (true, _)` of the
`try` block (an exception would have produced `False`). -/
theorem applyAdaptation_true_core (st : Store) (plan : AdaptationPlan) (sid : ℕ)
    (reason : String) (now : ℚ) (st' : Store)
    (h : applyScheduleAdaptation st plan sid reason now = (true, st')) :
    applyScheduleAdaptationCore st plan sid reason now = .ok (true, st') := by
  rw [applyScheduleAdaptation] at h
  cases hc : applyScheduleAdaptationCore st plan sid reason now with
  | ok r =>
    rw [hc] at h
    cases r with
    | mk b s2 =>
      have : (b, s2) = (true, st') := h
      obtain ⟨hb, hs⟩ := Prod.mk.injEq _ _ _ _ |>.mp this
      rw [hb, hs]
  | error e =>
    rw [hc] at h
    have : ((false, st) : Bool × Store) = (true, st') := h
    obtain ⟨hb, _⟩ := Prod.mk.injEq _ _ _ _ |>.mp this
    exact absurd hb (by decide)

/-- C1: if the session id is unknown, `apply_schedule_adaptation` returns
`False` with the store untouched; a `True` return appends exactly one new
audit record and every session that was `missed` before is still `missed`
(same id, same position); and any exception inside the `try` block rolls
back every write of the call and returns `False`. -/
theorem claim1_apply_adaptation (st : Store) (plan : AdaptationPlan) (sid : ℕ)
    (reason : String) (now : ℚ) :
    (st.findSession sid = none →
      applyScheduleAdaptation st plan sid reason now = (false, st)) ∧
    (∀ st', applyScheduleAdaptation st plan sid reason now = (true, st') →
      st'.adaptations = st.adaptations ++ [auditRow st plan sid reason now] ∧
      (∀ (i : ℕ) (s : StudySession), st.sessions[i]? = some s → s.status = "missed" →
        ∃ s', st'.sessions[i]? = some s' ∧ s'.id = s.id ∧ s'.status = "missed")) ∧
    (∀ e, applyScheduleAdaptationCore st plan sid reason now = .error e →
      applyScheduleAdaptation st plan sid reason now = (false, st)) := by
  refine ⟨?_, ?_, ?_⟩
  · intro hnone
    rw [applyScheduleAdaptation, applyScheduleAdaptationCore, hnone]
    rfl
  · intro st' h
    have hc := applyAdaptation_true_core st plan sid reason now st' h
    rcases applyCore_ok_shape st plan sid reason now true st' hc with
      ⟨hb, _, _⟩ | ⟨_, orig, _, _, _, hadapt, hev, _, _⟩
    · exact absurd hb (by decide)
    · refine ⟨hadapt, ?_⟩
      intro i s hi hmiss
      obtain ⟨s', hs', hid, hd⟩ := hev i s hi
      rcases hd with rfl | ⟨hsch, _⟩
      · exact ⟨s', hs', hid, hmiss⟩
      · rw [hmiss] at hsch
        exact absurd hsch (by decide)
  · intro e he
    rw [applyScheduleAdaptation, he]
    rfl

end StudyAgent

namespace StudyAgent

/-- Concrete evaluation: applying `planX` to the missed session 1 of `stX`
succeeds and produces `stXresult`. -/
theorem evalApplyX :
    applyScheduleAdaptation stX planX 1 "missed_session: illness" 100 = (true, stXresult) := by
  norm_num [applyScheduleAdaptation, rollbackOnError, applyScheduleAdaptationCore,
    applyAdjustment, req, rescheduleFirstScheduled, stX, planX, stXresult, mkSess,
    Store.findSession, Store.findChapterByTitle, AdaptationPlan.rescheduleInfo,
    AdaptationPlan.adjustments, addAudit, auditRow, addRescheduled, rescheduledRow,
    List.foldlM, Bind.bind, Except.bind, Pure.pure, Except.pure]
  try simp
  try norm_num

/-- Concrete evaluation: a reschedule block without `new_time` raises. -/
theorem evalApplyErr :
    applyScheduleAdaptationCore stX planErr 1 "r" 100 = .error "new_time" := by
  norm_num [applyScheduleAdaptationCore, applyAdjustment, req, stX, planErr, mkSess,
    Store.findSession, AdaptationPlan.rescheduleInfo, AdaptationPlan.adjustments,
    addAudit, auditRow, List.foldlM, Bind.bind, Except.bind, Pure.pure, Except.pure]
  try simp

/-- C1 witness: the three branches of the claim exercised on concrete data. -/
theorem claim1_witness :
    applyScheduleAdaptation stX planX 99 "r" 100 = (false, stX) ∧
    stXresult.adaptations =
      stX.adaptations ++ [auditRow stX planX 1 "missed_session: illness" 100] ∧
    (∃ s', stXresult.sessions[0]? = some s' ∧ s'.id = 1 ∧ s'.status = "missed") ∧
    applyScheduleAdaptation stX planErr 1 "r" 100 = (false, stX) := by
  refine ⟨?_, ?_, ?_, ?_⟩
  · exact (claim1_apply_adaptation stX planX 99 "r" 100).1 rfl
  · exact ((claim1_apply_adaptation stX planX 1 "missed_session: illness" 100).2.1
      stXresult evalApplyX).1
  · exact ((claim1_apply_adaptation stX planX 1 "missed_session: illness" 100).2.1
      stXresult evalApplyX).2 0 (mkSess 1 1 "missed") rfl rfl
  · exact (claim1_apply_adaptation stX planErr 1 "r" 100).2.2 "new_time" evalApplyErr

end StudyAgent

namespace StudyAgent

/-- `filter_by(...).first()` updates exactly the first matching row: if the
session at index `i` is the first still-`scheduled` session of the chapter,
the in-place move is `List.set` at `i`. -/
theorem rescheduleFirstScheduled_at (chId : ℕ) (dt now : ℚ) :
    ∀ (l : List StudySession) (i : ℕ) (s : StudySession),
      l[i]? = some s → s.chapterId = chId → s.status = "scheduled" →
      (∀ (j : ℕ) (s2 : StudySession), j < i → l[j]? = some s2 →
        ¬(s2.chapterId = chId ∧ s2.status = "scheduled")) →
      rescheduleFirstScheduled chId dt now l =
        some (l.set i
          { s with scheduledDate := dt, status := "rescheduled", updatedAt := now }) := by
  intro l
  induction l with
  | nil => intro i s hi; simp at hi
  | cons a rest ih =>
    intro i s hi hch hsch hfirst
    cases i with
    | zero =>
      obtain rfl : a = s := by simpa using hi
      have hc : (a.chapterId == chId && a.status == "scheduled") = true := by
        rw [Bool.and_eq_true]
        exact ⟨beq_iff_eq.mpr hch, beq_iff_eq.mpr hsch⟩
      rw [rescheduleFirstScheduled, if_pos hc]
      simp
    | succ n =>
      have hnot : ¬(a.chapterId = chId ∧ a.status = "scheduled") :=
        hfirst 0 a (Nat.succ_pos n) List.getElem?_cons_zero
      have hc : (a.chapterId == chId && a.status == "scheduled") = false := by
        rw [Bool.eq_false_iff]
        intro hcontra
        rw [Bool.and_eq_true] at hcontra
        exact hnot ⟨beq_iff_eq.mp hcontra.1, beq_iff_eq.mp hcontra.2⟩
      rw [rescheduleFirstScheduled, if_neg (by rw [hc]; exact Bool.false_ne_true)]
      simp only [List.getElem?_cons_succ] at hi
      have hfirst' : ∀ (j : ℕ) (s2 : StudySession), j < n → rest[j]? = some s2 →
          ¬(s2.chapterId = chId ∧ s2.status = "scheduled") := by
        intro j s2 hj hs2
        exact hfirst (j + 1) s2 (Nat.succ_lt_succ hj) (by simpa using hs2)
      rw [ih n s hi hch hsch hfirst']
      simp [Option.map_some']

/-- C5: a successful application whose plan has a reschedule block creates
exactly one brand-new session appended at the end — same chapter as the
original, at the block's date+time, duration = original + signed adjustment,
status `rescheduled` — and each `reschedule`-type adjustment entry whose
title resolves moves the first still-`scheduled` session of that chapter in
place (`List.set`, no new entity), overwriting its time and setting status
`rescheduled`. -/
theorem claim5_reschedule (st : Store) (plan : AdaptationPlan) (sid : ℕ)
    (reason : String) (now : ℚ) :
    (∀ st' info, applyScheduleAdaptation st plan sid reason now = (true, st') →
      plan.rescheduleInfo = some info →
      ∃ orig d t, st.findSession sid = some orig ∧ info.newDate = some d ∧
        info.newTime = some t ∧
        st'.sessions.length = st.sessions.length + 1 ∧
        st'.sessions[st.sessions.length]? =
          some (rescheduledRow (addAudit st plan sid reason now) orig info d t now)) ∧
    (∀ (adj : Adjustment) (st1 : Store) (title : String) (ch : Chapter) (d : ℤ)
        (t : ℕ) (i : ℕ) (s : StudySession),
      adj.changeType = some "reschedule" → adj.originalSession = some title →
      st1.findChapterByTitle title = some ch →
      adj.newDate = some d → adj.newTime = some t →
      st1.sessions[i]? = some s → s.chapterId = ch.id → s.status = "scheduled" →
      (∀ (j : ℕ) (s2 : StudySession), j < i → st1.sessions[j]? = some s2 →
        ¬(s2.chapterId = ch.id ∧ s2.status = "scheduled")) →
      applyAdjustment now st1 adj = .ok { st1 with
        sessions := st1.sessions.set i
          { s with scheduledDate := (d : ℚ) * 1440 + (t : ℚ),
                   status := "rescheduled", updatedAt := now } }) := by
  constructor
  · intro st' info h hinfo
    have hc := applyAdaptation_true_core st plan sid reason now st' h
    rcases applyCore_ok_shape st plan sid reason now true st' hc with
      ⟨hb, _, _⟩ | ⟨_, orig, hfind, _, _, _, _, _, hsome⟩
    · exact absurd hb (by decide)
    · obtain ⟨d, t, hd, ht, hlen, hat⟩ := hsome info hinfo
      exact ⟨orig, d, t, hfind, hd, ht, hlen, hat⟩
  · intro adj st1 title ch d t i s hct hos hch hnd hnt hi hchap hsch hfirst
    rw [applyAdjustment, hct]
    simp only [req, Option.elim_some, exceptBindOk]
    simp only [if_true]
    rw [hos]
    simp only [req, Option.elim_some, exceptBindOk]
    rw [hch]
    simp only [Option.elim_some]
    have hmem : s ∈ st1.sessions := mem_of_getElem?' hi
    have hfs : (st1.sessions.find?
        (fun s2 => s2.chapterId == ch.id && s2.status == "scheduled")).isSome = true := by
      rw [List.find?_isSome]
      refine ⟨s, hmem, ?_⟩
      rw [Bool.and_eq_true]
      exact ⟨beq_iff_eq.mpr hchap, beq_iff_eq.mpr hsch⟩
    rw [if_pos hfs, hnd]
    simp only [req, Option.elim_some, exceptBindOk]
    rw [hnt]
    simp only [req, Option.elim_some, exceptBindOk]
    rw [rescheduleFirstScheduled_at ch.id ((d : ℚ) * 1440 + (t : ℚ)) now
      st1.sessions i s hi hchap hsch hfirst]
    simp only [Option.elim_some, exceptPureEq]

end StudyAgent

namespace StudyAgent

/-- C5 witness: on `stX`/`planX` the new session is appended for the missed
session's chapter, and the adjustment entry moves session 2 in place. -/
theorem claim5_witness :
    (stXresult.sessions.length = stX.sessions.length + 1 ∧
     stXresult.sessions[stX.sessions.length]? =
       some (rescheduledRow (addAudit stX planX 1 "missed_session: illness" 100)
         (mkSess 1 1 "missed") ⟨some 10, some 840, some (1/2), none⟩ 10 840 100)) ∧
    applyAdjustment 100 stX ⟨some "reschedule", some "B", some 11, some 600⟩ =
      .ok { stX with
              sessions := stX.sessions.set 1
                { mkSess 2 2 "scheduled" with
                    scheduledDate := (11 : ℚ) * 1440 + (600 : ℚ)
                    status := "rescheduled"
                    updatedAt := 100 } } := by
  constructor
  · obtain ⟨orig, d, t, hfind, hd, ht, hlen, hat⟩ :=
      (claim5_reschedule stX planX 1 "missed_session: illness" 100).1 stXresult
        ⟨some 10, some 840, some (1/2), none⟩ evalApplyX rfl
    obtain rfl : orig = mkSess 1 1 "missed" := by
      have : stX.findSession 1 = some (mkSess 1 1 "missed") := rfl
      rw [this] at hfind
      exact (Option.some_inj.mp hfind).symm
    obtain rfl : d = 10 := by
      have : (⟨some 10, some 840, some (1/2), none⟩ : RescheduleInfo).newDate = some 10 := rfl
      rw [this] at hd
      exact Option.some_inj.mp hd.symm
    obtain rfl : t = 840 := by
      have : (⟨some 10, some 840, some (1/2), none⟩ : RescheduleInfo).newTime = some 840 := rfl
      rw [this] at ht
      exact Option.some_inj.mp ht.symm
    exact ⟨hlen, hat⟩
  · refine (claim5_reschedule stX planX 1 "missed_session: illness" 100).2
      ⟨some "reschedule", some "B", some 11, some 600⟩ stX "B" ⟨2, 1, "B", 2, false⟩
      11 600 1 (mkSess 2 2 "scheduled") rfl rfl rfl rfl rfl rfl rfl rfl ?_
    intro j s2 hj hs2
    obtain rfl : j = 0 := by omega
    have hv : stX.sessions[(0 : ℕ)]? = some (mkSess 1 1 "missed") := rfl
    rw [hv] at hs2
    obtain rfl := Option.some_inj.mp hs2
    intro hcontra
    exact absurd hcontra.2 (by decide)

end StudyAgent

namespace StudyAgent

theorem markMissed_notfound (st : Store) (sid : ℕ) (reason : Option String) (now : ℚ)
    (h : st.findSession sid = none) :
    markSessionMissed st sid reason now = (false, st) := by
  rw [markSessionMissed, h]
  rfl

theorem markMissed_found (st : Store) (sid : ℕ) (reason : Option String) (now : ℚ)
    (s0 : StudySession) (h : st.findSession sid = some s0) :
    markSessionMissed st sid reason now = (true, { st with
      sessions := st.sessions.map (fun s =>
        if s.id == sid then missedUpdate reason now s else s) }) := by
  rw [markSessionMissed, h]
  rfl

theorem find?_id_map (l : List StudySession) (sid : ℕ) (g : StudySession → StudySession)
    (hg : ∀ s, (g s).id = s.id) :
    ((l.map (fun s => if s.id == sid then g s else s)).find? (fun s => s.id == sid)) =
      (l.find? (fun s => s.id == sid)).map (fun s => if s.id == sid then g s else s) := by
  induction l with
  | nil => rfl
  | cons a rest ih =>
    by_cases ha : (a.id == sid) = true
    · have hga : ((g a).id == sid) = true := by rw [hg a]; exact ha
      rw [List.map_cons, if_pos ha]
      simp only [List.find?_cons, hga, ha, Option.map_some']
      simp
    · have ha2 : (a.id == sid) = false := by simpa using ha
      rw [List.map_cons, if_neg ha]
      simp only [List.find?_cons, ha2]
      exact ih

theorem missedUpdate_id (reason : Option String) (now : ℚ) (s : StudySession) :
    (missedUpdate reason now s).id = s.id := rfl

/-- C7: `mark_session_missed` returns `False` and leaves the store unchanged
for an unknown id; otherwise it returns `True` and rewrites exactly the
session with that id — status `missed`, the fixed note text (with
"Not specified" for an absent or empty reason), fresh update stamp — leaving
every other row at its position untouched; it never touches the audit table;
and a second invocation leaves every session's status and note exactly as
after the first (and still no audit row). -/
theorem claim7_mark_missed (st : Store) (sid : ℕ) (reason : Option String) (now : ℚ) :
    (st.findSession sid = none → markSessionMissed st sid reason now = (false, st)) ∧
    (∀ s0, st.findSession sid = some s0 →
      (markSessionMissed st sid reason now).1 = true ∧
      ∀ (i : ℕ) (s : StudySession), st.sessions[i]? = some s →
        (markSessionMissed st sid reason now).2.sessions[i]? = some
          (if s.id = sid then missedUpdate reason now s else s)) ∧
    (∀ s, (missedUpdate reason now s).status = "missed" ∧
      (missedUpdate reason now s).notes = some (missedNote reason) ∧
      (missedUpdate reason now s).updatedAt = now) ∧
    ((markSessionMissed st sid reason now).2.adaptations = st.adaptations) ∧
    (missedNote none = "Missed session. Reason: Not specified" ∧
      missedNote (some "") = "Missed session. Reason: Not specified") ∧
    (∀ now2 : ℚ,
      ((markSessionMissed (markSessionMissed st sid reason now).2 sid reason now2).2.sessions.map
          (fun s => (s.status, s.notes))) =
        ((markSessionMissed st sid reason now).2.sessions.map (fun s => (s.status, s.notes))) ∧
      (markSessionMissed (markSessionMissed st sid reason now).2 sid reason now2).2.adaptations =
        st.adaptations) := by
  have hadapt : ∀ (st2 : Store) (now2 : ℚ),
      (markSessionMissed st2 sid reason now2).2.adaptations = st2.adaptations := by
    intro st2 now2
    cases hf : st2.findSession sid with
    | none => rw [markMissed_notfound st2 sid reason now2 hf]
    | some s0 => rw [markMissed_found st2 sid reason now2 s0 hf]
  refine ⟨markMissed_notfound st sid reason now, ?_, fun s => ⟨rfl, rfl, rfl⟩,
    hadapt st now, ⟨rfl, rfl⟩, ?_⟩
  · intro s0 h0
    rw [markMissed_found st sid reason now s0 h0]
    refine ⟨rfl, ?_⟩
    intro i s hi
    simp only [List.getElem?_map, hi, Option.map_some']
    by_cases hid : s.id = sid
    · rw [if_pos (beq_iff_eq.mpr hid), if_pos hid]
    · rw [if_neg (by simpa using hid), if_neg hid]
  · intro now2
    refine ⟨?_, ?_⟩
    · cases hf : st.findSession sid with
      | none =>
        rw [markMissed_notfound st sid reason now hf,
          markMissed_notfound st sid reason now2 hf]
      | some s0 =>
        rw [markMissed_found st sid reason now s0 hf]
        have hfind1 : ({ st with
            sessions := st.sessions.map (fun s =>
              if s.id == sid then missedUpdate reason now s else s) } : Store).findSession
              sid =
            some (if s0.id == sid then missedUpdate reason now s0 else s0) := by
          show (st.sessions.map _).find? _ = _
          rw [find?_id_map st.sessions sid _ (missedUpdate_id reason now)]
          rw [show st.findSession sid = st.sessions.find? (fun s => s.id == sid) from rfl]
            at hf
          rw [hf, Option.map_some']
        rw [markMissed_found _ sid reason now2 _ hfind1]
        simp only [List.map_map]
        refine List.map_congr_left ?_
        intro a _
        simp only [Function.comp_apply]
        by_cases hid : (a.id == sid) = true
        · rw [if_pos hid]
          rw [if_pos (show ((missedUpdate reason now a).id == sid) = true from hid)]
          rfl
        · rw [if_neg hid, if_neg hid]
    · rw [hadapt _ now2, hadapt st now]

/-- C7 witness: unknown id 99 fails and changes nothing; marking session 1
of `stC2` succeeds, rewrites it to `missed` with the default note, and
re-marking keeps status and note identical. -/
theorem claim7_witness :
    markSessionMissed stC2 99 none 0 = (false, stC2) ∧
    (markSessionMissed stC2 1 none 0).1 = true ∧
    (markSessionMissed stC2 1 none 0).2.sessions[0]? =
      some (missedUpdate none 0 (mkSess 1 1 "scheduled")) ∧
    ((markSessionMissed (markSessionMissed stC2 1 none 0).2 1 none 5).2.sessions.map
        (fun s => (s.status, s.notes))) =
      ((markSessionMissed stC2 1 none 0).2.sessions.map (fun s => (s.status, s.notes))) := by
  refine ⟨?_, ?_, ?_, ?_⟩
  · exact (claim7_mark_missed stC2 99 none 0).1 rfl
  · exact ((claim7_mark_missed stC2 1 none 0).2.1 (mkSess 1 1 "scheduled") rfl).1
  · have h := ((claim7_mark_missed stC2 1 none 0).2.1 (mkSess 1 1 "scheduled") rfl).2
      0 (mkSess 1 1 "scheduled") rfl
    rw [h]
    rfl
  · exact ((claim7_mark_missed stC2 1 none 0).2.2.2.2.2 5).1

end StudyAgent

namespace StudyAgent

/-- C10: marking an existing session completed returns `True`, sets that
session's status to `completed`, and flips its chapter's completion flag to
`true` exactly when, with the session's own update already applied, no
session of that chapter is still in status `scheduled` (sessions in
`missed` or `rescheduled` status do not block the flag); the operation never
resets the flag to `false`. -/
theorem claim10_chapter_completion (st : Store) (sid : ℕ) (notes0 : Option String)
    (now : ℚ) (s0 : StudySession) (h : st.findSession sid = some s0) :
    (markSessionCompleted st sid notes0 now).1 = true ∧
    (∀ (i : ℕ) (s : StudySession), st.sessions[i]? = some s → s.id = sid →
      ∃ s', (markSessionCompleted st sid notes0 now).2.sessions[i]? = some s' ∧
        s'.status = "completed") ∧
    (∀ (j : ℕ) (c : Chapter), st.chapters[j]? = some c →
      (markSessionCompleted st sid notes0 now).2.chapters[j]? = some
        (if c.id = s0.chapterId ∧
            ((markSessionCompleted st sid notes0 now).2.sessions.filter
              (fun s => s.chapterId == s0.chapterId && s.status == "scheduled")).length = 0
         then { c with isCompleted := true } else c)) ∧
    (∀ (j : ℕ) (c c' : Chapter), st.chapters[j]? = some c →
      (markSessionCompleted st sid notes0 now).2.chapters[j]? = some c' →
      c.isCompleted = true → c'.isCompleted = true) := by
  simp only [markSessionCompleted, h, Option.elim_some]
  refine ⟨by trivial, ?_, ?_, ?_⟩
  · intro i s hi hid
    refine ⟨if s.id == sid then completedUpdate notes0 now s else s, ?_, ?_⟩
    · simp only [List.getElem?_map, hi, Option.map_some']
    · rw [if_pos (beq_iff_eq.mpr hid)]
      rfl
  · intro j c hc
    by_cases hrem : (((st.sessions.map (fun s =>
        if s.id == sid then completedUpdate notes0 now s else s)).filter
        (fun s => s.chapterId == s0.chapterId && s.status == "scheduled")).length) = 0
    · rw [if_pos hrem]
      simp only [List.getElem?_map, hc, Option.map_some']
      by_cases hcid : c.id = s0.chapterId
      · rw [if_pos (beq_iff_eq.mpr hcid), if_pos ⟨hcid, hrem⟩]
      · rw [if_neg (by simpa using hcid), if_neg (fun hx => hcid hx.1)]
    · rw [if_neg hrem, hc, if_neg (fun hx => hrem hx.2)]
  · intro j c c' hc hc' hTrue
    by_cases hrem : (((st.sessions.map (fun s =>
        if s.id == sid then completedUpdate notes0 now s else s)).filter
        (fun s => s.chapterId == s0.chapterId && s.status == "scheduled")).length) = 0
    · rw [if_pos hrem] at hc'
      simp only [List.getElem?_map, hc, Option.map_some'] at hc'
      obtain rfl := Option.some_inj.mp hc'
      by_cases hcid : (c.id == s0.chapterId) = true
      · rw [if_pos hcid]
      · rw [if_neg hcid]
        exact hTrue
    · rw [if_neg hrem, hc] at hc'
      obtain rfl := Option.some_inj.mp hc'
      exact hTrue

/-- C10 witness: completing session 1 of `stC2` (the only session of chapter
1) flips the chapter's flag: the condition holds since no `scheduled`
session remains. -/
theorem claim10_witness :
    (markSessionCompleted stC2 1 none 0).1 = true ∧
    (∃ s', (markSessionCompleted stC2 1 none 0).2.sessions[0]? = some s' ∧
      s'.status = "completed") ∧
    (markSessionCompleted stC2 1 none 0).2.chapters[0]? = some
      (if (1 : ℕ) = 1 ∧
          (((markSessionCompleted stC2 1 none 0).2.sessions.filter
            (fun s => s.chapterId == (1 : ℕ) && s.status == "scheduled")).length = 0)
       then { (⟨1, 1, "A", 2, false⟩ : Chapter) with isCompleted := true }
       else ⟨1, 1, "A", 2, false⟩) := by
  have hfind : stC2.findSession 1 = some (mkSess 1 1 "scheduled") := rfl
  have hall := claim10_chapter_completion stC2 1 none 0 (mkSess 1 1 "scheduled") hfind
  refine ⟨hall.1, ?_, ?_⟩
  · exact hall.2.1 0 (mkSess 1 1 "scheduled") rfl rfl
  · exact hall.2.2.1 0 ⟨1, 1, "A", 2, false⟩ rfl

end StudyAgent

namespace StudyAgent

/-- One mutating operation moves a session's status only into `completed`
(mark-completed), into `missed` (mark-missed), or from `scheduled` to
`rescheduled` (adaptation); otherwise the status is untouched. -/
theorem statusStep (st : Store) (op : Op) (i : ℕ) (s s' : StudySession)
    (h1 : st.sessions[i]? = some s) (h2 : (applyOp st op).sessions[i]? = some s') :
    s'.status = s.status ∨ s'.status = "completed" ∨ s'.status = "missed" ∨
      (s.status = "scheduled" ∧ s'.status = "rescheduled") := by
  cases op with
  | markCompleted sid notes now =>
    rw [applyOp] at h2
    cases hf : st.findSession sid with
    | none =>
      rw [markSessionCompleted, hf] at h2
      simp only [Option.elim_none] at h2
      rw [h1] at h2
      obtain rfl := Option.some_inj.mp h2
      exact Or.inl rfl
    | some s0 =>
      simp only [markSessionCompleted, hf, Option.elim_some] at h2
      simp only [List.getElem?_map, h1, Option.map_some'] at h2
      obtain rfl := Option.some_inj.mp h2
      by_cases hid : (s.id == sid) = true
      · rw [if_pos hid]
        exact Or.inr (Or.inl rfl)
      · rw [if_neg hid]
        exact Or.inl rfl
  | markMissed sid reason now =>
    rw [applyOp] at h2
    cases hf : st.findSession sid with
    | none =>
      rw [markMissed_notfound st sid reason now hf] at h2
      rw [h1] at h2
      obtain rfl := Option.some_inj.mp h2
      exact Or.inl rfl
    | some s0 =>
      rw [markMissed_found st sid reason now s0 hf] at h2
      simp only [List.getElem?_map, h1, Option.map_some'] at h2
      obtain rfl := Option.some_inj.mp h2
      by_cases hid : (s.id == sid) = true
      · rw [if_pos hid]
        exact Or.inr (Or.inr (Or.inl rfl))
      · rw [if_neg hid]
        exact Or.inl rfl
  | adapt plan sid reason now =>
    rw [applyOp, applyScheduleAdaptation] at h2
    cases hc : applyScheduleAdaptationCore st plan sid reason now with
    | error e =>
      rw [hc] at h2
      have : (rollbackOnError st (Except.error e)).2 = st := rfl
      rw [this, h1] at h2
      obtain rfl := Option.some_inj.mp h2
      exact Or.inl rfl
    | ok r =>
      rw [hc] at h2
      cases r with
      | mk b st2 =>
        have : (rollbackOnError st (Except.ok (b, st2))).2 = st2 := rfl
        rw [this] at h2
        rcases applyCore_ok_shape st plan sid reason now b st2 hc with
          ⟨_, _, rfl⟩ | ⟨_, _, _, _, _, _, hev, _, _⟩
        · rw [h1] at h2
          obtain rfl := Option.some_inj.mp h2
          exact Or.inl rfl
        · obtain ⟨s2, hs2, _, hd⟩ := hev i s h1
          rw [hs2] at h2
          obtain rfl := Option.some_inj.mp h2
          rcases hd with rfl | ⟨ha, hb⟩
          · exact Or.inl rfl
          · exact Or.inr (Or.inr (Or.inr ⟨ha, hb⟩))

/-- C2 (counterexample): starting from a store whose only session is
`scheduled`, the reachable sequence [mark-completed, mark-missed] first
gives status `completed`, then `missed` — the edge `completed → missed`,
which the claimed invariant says is never produced. -/
theorem claim2_counterexample :
    ((applyOps stC2 [Op.markCompleted 1 none 0]).sessions.map (fun s => s.status)) =
      ["completed"] ∧
    ((applyOps stC2 [Op.markCompleted 1 none 0,
        Op.markMissed 1 (some "sick") 5]).sessions.map (fun s => s.status)) =
      ["missed"] := by
  constructor
  · norm_num [applyOps, applyOp, markSessionCompleted, completedUpdate, stC2, mkSess,
      Store.findSession]
  · norm_num [applyOps, applyOp, markSessionCompleted, completedUpdate,
      markSessionMissed, missedUpdate, stC2, mkSess, Store.findSession]

/-- C2 (amended): along any operation sequence, each step changes a
session's status only to `completed` (any prior status — mark-completed
does not guard), to `missed` (any prior status), or from `scheduled` to
`rescheduled`; in particular `completed → missed` and `missed → completed`
ARE reachable (see the counterexample), so the claimed edge set must include
them. -/
theorem claim2_status_transitions_amended (ops : List Op) (st : Store) (k i : ℕ)
    (s s' : StudySession)
    (h1 : (applyOps st (ops.take k)).sessions[i]? = some s)
    (h2 : (applyOps st (ops.take (k + 1))).sessions[i]? = some s') :
    s'.status = s.status ∨ s'.status = "completed" ∨ s'.status = "missed" ∨
      (s.status = "scheduled" ∧ s'.status = "rescheduled") := by
  rw [List.take_succ] at h2
  cases hk : ops[k]? with
  | none =>
    rw [hk] at h2
    simp only [Option.toList_none, List.append_nil] at h2
    rw [h1] at h2
    obtain rfl := Option.some_inj.mp h2
    exact Or.inl rfl
  | some op =>
    rw [hk] at h2
    simp only [Option.toList_some] at h2
    rw [applyOps, List.foldl_append] at h2
    exact statusStep (applyOps st (ops.take k)) op i s s' h1 h2

/-- C2 witness (for the amended theorem): one step of mark-completed on the
`scheduled` session of `stC2` realizes one of the allowed edges. -/
theorem claim2_witness :
    (completedUpdate none 0 (mkSess 1 1 "scheduled")).status = (mkSess 1 1 "scheduled").status ∨
    (completedUpdate none 0 (mkSess 1 1 "scheduled")).status = "completed" ∨
    (completedUpdate none 0 (mkSess 1 1 "scheduled")).status = "missed" ∨
    ((mkSess 1 1 "scheduled").status = "scheduled" ∧
      (completedUpdate none 0 (mkSess 1 1 "scheduled")).status = "rescheduled") := by
  have h := claim2_status_transitions_amended [Op.markCompleted 1 none 0] stC2 0 0
    (mkSess 1 1 "scheduled") (completedUpdate none 0 (mkSess 1 1 "scheduled")) rfl ?_
  · exact h
  · show (applyOps stC2 [Op.markCompleted 1 none 0]).sessions[0]? = _
    norm_num [applyOps, applyOp, markSessionCompleted, stC2, mkSess, Store.findSession]

end StudyAgent

namespace StudyAgent

theorem findChapterByTitle_congr (st1 st2 : Store) (h : st1.chapters = st2.chapters)
    (t : String) : st1.findChapterByTitle t = st2.findChapterByTitle t := by
  rw [Store.findChapterByTitle, Store.findChapterByTitle, h]

theorem specMaterialize_append (now : ℚ) :
    ∀ (l1 l2 : List (ℤ × AISessionData × Chapter)) (n : ℕ),
      specMaterialize now n (l1 ++ l2) =
        specMaterialize now n l1 ++ specMaterialize now (n + l1.length) l2 := by
  intro l1
  induction l1 with
  | nil => intro l2 n; simp [specMaterialize]
  | cons t rest ih =>
    intro l2 n
    simp only [List.cons_append, specMaterialize, List.length_cons, List.append_eq]
    rw [ih l2 (n + 1)]
    rw [show n + 1 + rest.length = n + (rest.length + 1) by omega]

theorem specMaterialize_length (now : ℚ) :
    ∀ (l : List (ℤ × AISessionData × Chapter)) (n : ℕ),
      (specMaterialize now n l).length = l.length := by
  intro l
  induction l with
  | nil => intro n; rfl
  | cons t rest ih => intro n; simp [specMaterialize, ih]

theorem specMaterialize_shape (now : ℚ) :
    ∀ (l : List (ℤ × AISessionData × Chapter)) (n : ℕ),
      List.Forall₂ (fun (t : ℤ × AISessionData × Chapter) (s : StudySession) =>
        s.chapterId = t.2.2.id ∧
        s.scheduledDate = (t.1 : ℚ) * 1440 + (t.2.1.startTime : ℚ) ∧
        s.durationHours = t.2.1.durationHours ∧ s.status = "scheduled")
        l (specMaterialize now n l) := by
  intro l
  induction l with
  | nil => intro n; exact List.Forall₂.nil
  | cons t rest ih =>
    intro n
    exact List.Forall₂.cons ⟨rfl, rfl, rfl, rfl⟩ (ih (n + 1))

/-- Invariant of the inner descriptor loop of the materializer. -/
theorem materialize_day_foldl (dayDate : ℤ) (now : ℚ) :
    ∀ (sds : List AISessionData) (acc : List StudySession × Store),
      (sds.foldl (materializeStep dayDate now) acc).1 =
        acc.1 ++ specMaterialize now acc.2.nextSessionId
          (sds.filterMap (fun sd => (acc.2.findChapterByTitle sd.chapterTitle).map
            (fun ch => (dayDate, sd, ch)))) ∧
      (sds.foldl (materializeStep dayDate now) acc).2.sessions =
        acc.2.sessions ++ specMaterialize now acc.2.nextSessionId
          (sds.filterMap (fun sd => (acc.2.findChapterByTitle sd.chapterTitle).map
            (fun ch => (dayDate, sd, ch)))) ∧
      (sds.foldl (materializeStep dayDate now) acc).2.chapters = acc.2.chapters ∧
      (sds.foldl (materializeStep dayDate now) acc).2.nextSessionId =
        acc.2.nextSessionId +
          (sds.filterMap (fun sd => (acc.2.findChapterByTitle sd.chapterTitle).map
            (fun ch => (dayDate, sd, ch)))).length := by
  intro sds
  induction sds with
  | nil =>
    intro acc
    simp [specMaterialize]
  | cons sd rest ih =>
    intro acc
    simp only [List.foldl_cons]
    cases hch : acc.2.findChapterByTitle sd.chapterTitle with
    | none =>
      have hstep : materializeStep dayDate now acc sd = acc := by
        rw [materializeStep, hch]
        rfl
      rw [hstep]
      have hfm : (sd :: rest).filterMap (fun sd =>
          (acc.2.findChapterByTitle sd.chapterTitle).map (fun ch => (dayDate, sd, ch))) =
          rest.filterMap (fun sd =>
            (acc.2.findChapterByTitle sd.chapterTitle).map (fun ch => (dayDate, sd, ch))) := by
        simp only [List.filterMap_cons, hch, Option.map_none']
      rw [hfm]
      exact ih acc
    | some ch =>
      have hstep : materializeStep dayDate now acc sd =
          (acc.1 ++ [materializedSession dayDate sd ch acc.2.nextSessionId now],
           { acc.2 with
             sessions := acc.2.sessions ++
               [materializedSession dayDate sd ch acc.2.nextSessionId now]
             nextSessionId := acc.2.nextSessionId + 1 }) := by
        rw [materializeStep, hch]
        rfl
      have hfm : (sd :: rest).filterMap (fun sd =>
          (acc.2.findChapterByTitle sd.chapterTitle).map (fun ch => (dayDate, sd, ch))) =
          (dayDate, sd, ch) :: rest.filterMap (fun sd =>
            (acc.2.findChapterByTitle sd.chapterTitle).map (fun ch => (dayDate, sd, ch))) := by
        simp only [List.filterMap_cons, hch, Option.map_some']
      rw [hstep, hfm]
      obtain ⟨i1, i2, i3, i4⟩ := ih
        (acc.1 ++ [materializedSession dayDate sd ch acc.2.nextSessionId now],
         { acc.2 with
           sessions := acc.2.sessions ++
             [materializedSession dayDate sd ch acc.2.nextSessionId now]
           nextSessionId := acc.2.nextSessionId + 1 })
      have hre : ∀ t : String,
          ({ acc.2 with
             sessions := acc.2.sessions ++
               [materializedSession dayDate sd ch acc.2.nextSessionId now]
             nextSessionId := acc.2.nextSessionId + 1 } : Store).findChapterByTitle t =
            acc.2.findChapterByTitle t := by
        intro t
        exact findChapterByTitle_congr _ _ rfl t
      simp only [hre] at i1 i2 i3 i4
      refine ⟨?_, ?_, i3, ?_⟩
      · rw [i1]
        simp only [List.append_assoc, List.singleton_append, specMaterialize]
      · rw [i2]
        simp only [List.append_assoc, List.singleton_append, specMaterialize]
      · rw [i4]
        simp only [List.length_cons]
        omega

end StudyAgent

namespace StudyAgent

theorem resolvedDescriptorsSpec_congr (st1 st2 : Store) (h : st1.chapters = st2.chapters) :
    ∀ sched, resolvedDescriptorsSpec st1 sched = resolvedDescriptorsSpec st2 sched := by
  intro sched
  have hf : ∀ t, st1.findChapterByTitle t = st2.findChapterByTitle t :=
    fun t => findChapterByTitle_congr st1 st2 h t
  simp only [resolvedDescriptorsSpec, hf]

/-- Invariant of the outer day loop of the materializer. -/
theorem materialize_all_foldl (now : ℚ) :
    ∀ (sched : List AIDaySchedule) (acc : List StudySession × Store),
      (sched.foldl (fun acc d => d.sessions.foldl (materializeStep d.date now) acc) acc).1 =
        acc.1 ++ specMaterialize now acc.2.nextSessionId
          (resolvedDescriptorsSpec acc.2 sched) ∧
      (sched.foldl (fun acc d => d.sessions.foldl (materializeStep d.date now) acc) acc).2.sessions =
        acc.2.sessions ++ specMaterialize now acc.2.nextSessionId
          (resolvedDescriptorsSpec acc.2 sched) ∧
      (sched.foldl (fun acc d => d.sessions.foldl (materializeStep d.date now) acc) acc).2.chapters =
        acc.2.chapters ∧
      (sched.foldl (fun acc d => d.sessions.foldl (materializeStep d.date now) acc) acc).2.nextSessionId =
        acc.2.nextSessionId + (resolvedDescriptorsSpec acc.2 sched).length := by
  intro sched
  induction sched with
  | nil =>
    intro acc
    simp [resolvedDescriptorsSpec, specMaterialize]
  | cons d rest ih =>
    intro acc
    simp only [List.foldl_cons]
    obtain ⟨d1, d2, d3, d4⟩ := materialize_day_foldl d.date now d.sessions acc
    obtain ⟨r1, r2, r3, r4⟩ := ih (d.sessions.foldl (materializeStep d.date now) acc)
    rw [resolvedDescriptorsSpec_congr _ _ d3 rest] at r1 r2 r4
    have hflat : resolvedDescriptorsSpec acc.2 (d :: rest) =
        (d.sessions.filterMap (fun sd => (acc.2.findChapterByTitle sd.chapterTitle).map
          (fun ch => (d.date, sd, ch)))) ++ resolvedDescriptorsSpec acc.2 rest := by
      simp only [resolvedDescriptorsSpec, List.flatMap_cons]
    refine ⟨?_, ?_, ?_, ?_⟩
    · rw [r1, d1, d4, hflat, specMaterialize_append, List.append_assoc]
    · rw [r2, d2, d4, hflat, specMaterialize_append, List.append_assoc]
    · rw [r3, d3]
    · rw [r4, d4, hflat, List.length_append]
      omega

/-- C8: the materializer creates exactly one session per resolvable
descriptor, in order, with consecutive fresh ids — chapter resolved by first
exact-title match against the (unchanged) chapter table, absolute start
timestamp `date + start time`, the descriptor's duration, status
`scheduled` — appends them as one batch to the session table, returns
exactly that list, and silently drops unresolvable descriptors (they
contribute nothing, and the typed model raises no error). -/
theorem claim8_materializer (st : Store) (sched : List AIDaySchedule) (now : ℚ) :
    (createSessionsFromAISchedule st sched now).1 =
      specMaterialize now st.nextSessionId (resolvedDescriptorsSpec st sched) ∧
    (createSessionsFromAISchedule st sched now).2.sessions =
      st.sessions ++ (createSessionsFromAISchedule st sched now).1 ∧
    (createSessionsFromAISchedule st sched now).2.chapters = st.chapters ∧
    (createSessionsFromAISchedule st sched now).1.length =
      (resolvedDescriptorsSpec st sched).length ∧
    (∀ (n : ℕ) (l : List (ℤ × AISessionData × Chapter)),
      List.Forall₂ (fun (t : ℤ × AISessionData × Chapter) (s : StudySession) =>
        s.chapterId = t.2.2.id ∧
        s.scheduledDate = (t.1 : ℚ) * 1440 + (t.2.1.startTime : ℚ) ∧
        s.durationHours = t.2.1.durationHours ∧ s.status = "scheduled")
        l (specMaterialize now n l)) := by
  obtain ⟨h1, h2, h3, _⟩ := materialize_all_foldl now sched ([], st)
  refine ⟨?_, ?_, ?_, ?_, fun n l => specMaterialize_shape now l n⟩
  · rw [createSessionsFromAISchedule, h1]
    rfl
  · rw [createSessionsFromAISchedule, h2, h1]
    rfl
  · rw [createSessionsFromAISchedule, h3]
  · rw [createSessionsFromAISchedule, h1]
    simp [specMaterialize_length]

end StudyAgent

namespace StudyAgent

/-- C6 witness (for the amended theorem): `stX` has no subjects, so zero
days remain; `st6`'s single subject is the earliest exam and three days
remain. -/
theorem claim6_amended_witness :
    (getStudyProgress stX 0).daysRemaining = 0 ∧
    (getStudyProgress st6 0).daysRemaining = max 0 (daysBetween 4320 0) := by
  constructor
  · exact (claim6_progress_amended stX 0).2.2.2.2.2.1 rfl
  · exact (((claim6_progress_amended st6 0).2.2.2.2.2.2.1 ⟨1, "S", 4320⟩ rfl)).2.2

end StudyAgent
